import Mathlib

/-!
# Access-control and relay gate of `endpoints.js`

A shallow embedding of the three pieces of `src/endpoints.js` that carry the
design weight of the module:

* the ban check of `router.get('/')` (wildcard entries compiled to regular
  expressions),
* the `authenticate` middleware together with the `/login` and `/logout`
  routes,
* `canLog` and the denial paths of `router.get('/log_fmlist')`.

JavaScript strings are modelled by Lean strings (sequences of characters);
the two notions coincide on the Basic Multilingual Plane, where every
address, password and identifier of interest lives.
-/

namespace Endpoints

/-! ## Sessions and `authenticate` -/

/-- The two flags of `req.session` that the module reads and writes.
`none` stands for a property that is still `undefined`. -/
structure Session where
  isAdminAuthenticated : Option Bool
  isTuneAuthenticated : Option Bool
  deriving DecidableEq, Repr

/-- A session as the session store hands it out on first contact. -/
def Session.fresh : Session := ⟨none, none⟩

/-- The object `serverConfig.password`. -/
structure PasswordConfig where
  adminPass : String
  tunePass : String
  deriving DecidableEq, Repr

/-- A response written with `res.status(..).json({ message })` or
`res.status(..).send(..)`. -/
structure Response where
  status : Nat
  message : String
  deriving DecidableEq, Repr

/-- What a middleware did: called `next()` or answered the request. -/
inductive Middleware where
  | next
  | respond (r : Response)
  deriving DecidableEq, Repr

/-- The middleware `authenticate` (lines 181-198): `password` is
`req.body.password`, `cfg` is `serverConfig.password`, `s` is `req.session`.
Returns the session after the call and what the middleware did. -/
def authenticate (password : String) (cfg : PasswordConfig) (s : Session) :
    Session × Middleware :=
  if password = cfg.adminPass then
    ({ s with isAdminAuthenticated := some true, isTuneAuthenticated := some true },
      Middleware.next)
  else if password = cfg.tunePass then
    ({ s with isAdminAuthenticated := some false, isTuneAuthenticated := some true },
      Middleware.next)
  else
    (s, Middleware.respond ⟨403, "Login failed. Wrong password?"⟩)

/-- The route `router.post('/login', authenticate, handler)` (lines 201-204):
the handler runs only when `authenticate` called `next()`. -/
def login (password : String) (cfg : PasswordConfig) (s : Session) :
    Session × Response :=
  match authenticate password cfg s with
  | (s', Middleware.next) => (s', ⟨200, "Logged in successfully, refreshing the page..."⟩)
  | (s', Middleware.respond r) => (s', r)

/-- The route `router.get('/logout')` (lines 206-211): `req.session.destroy`
discards the session, so the client continues with a fresh one. -/
def logout (_s : Session) : Session × Response :=
  (Session.fresh, ⟨200, "Logged out successfully, refreshing the page..."⟩)

/-- A request that touches the session flags. -/
inductive SessionEvent where
  | login (password : String) (cfg : PasswordConfig)
  | logout
  deriving Repr

/-- One request applied to a session. -/
def SessionEvent.apply (s : Session) : SessionEvent → Session
  | SessionEvent.login password cfg => (Endpoints.login password cfg s).1
  | SessionEvent.logout => (Endpoints.logout s).1

/-- The session reached from a fresh one after a sequence of requests. -/
def runSession (evs : List SessionEvent) : Session :=
  evs.foldl SessionEvent.apply Session.fresh

/-! ## `canLog` and the relay route -/

/-- A transmitter identifier `dataHandler.dataToSend.txInfo.id`: a string, or
an integer in the range of `Number.isSafeInteger` (magnitude below `2^53`).
In that range every integer is a number of its own and `String(n)` is its
decimal numeral; beyond it integers collapse to a shared number, and from
`1e21` on `String(n)` is written with an exponent. -/
inductive Identifier where
  | str (s : String)
  | int (n : Int) (safe : n.natAbs < 9007199254740992)
  deriving DecidableEq, Repr

/-- The property key `String(id)` under which `logHistory[id]` files an
identifier, and the text `${id}` interpolates: a string is its own key, a
safe integer is written in decimal. -/
def Identifier.key : Identifier → String
  | Identifier.str s => s
  | Identifier.int n _ => toString n

/-- The own properties of the object `logHistory`: keys to recorded
timestamps (milliseconds); `none` stands for a key without own property. -/
abbrev LogHistory := String → Option Int

/-- The initial value `{}` of `logHistory`. -/
def LogHistory.empty : LogHistory := fun _ => none

/-- The function-valued properties that the object literal `{}` inherits
from `Object.prototype`. -/
def inheritedKeys : List String :=
  ["constructor", "__defineGetter__", "__defineSetter__", "hasOwnProperty",
    "__lookupGetter__", "__lookupSetter__", "isPrototypeOf", "propertyIsEnumerable",
    "toString", "valueOf", "toLocaleString"]

/-- What the expression `logHistory[id]` evaluates to: `undefined`, a
recorded number, or an object (the prototype or an inherited function). -/
inductive Stored where
  | undefined
  | number (t : Int)
  | object
  deriving DecidableEq, Repr

/-- The read `logHistory[id]`.  The key `__proto__` is an accessor inherited
from `Object.prototype` and always yields the prototype object; another key
yields its own property, else an inherited function, else `undefined`. -/
def LogHistory.get (h : LogHistory) (k : String) : Stored :=
  if k = "__proto__" then Stored.object
  else
    match h k with
    | some t => Stored.number t
    | none => if k ∈ inheritedKeys then Stored.object else Stored.undefined

/-- The assignment `logHistory[id] = now`.  Under the key `__proto__` it calls
the inherited setter, which ignores a number; under any other key it writes
an own property. -/
def LogHistory.set (h : LogHistory) (k : String) (now : Int) : LogHistory :=
  if k = "__proto__" then h else fun k' => if k' = k then some now else h k'

/-- The constant `sixtyMinutes` of `canLog`. -/
def sixtyMinutes : Int := 60 * 60 * 1000

/-- JavaScript truthiness of `logHistory[id]`: `undefined` and `0` are
falsy, every other number and every object is truthy. -/
def truthy : Stored → Bool
  | Stored.undefined => false
  | Stored.number t => t != 0
  | Stored.object => true

/-- The comparison `(now - logHistory[id]) < sixtyMinutes`: the difference is
`NaN`, and the comparison false, unless a number is stored. -/
def withinSixtyMinutes (now : Int) : Stored → Bool
  | Stored.number t => decide (now - t < sixtyMinutes)
  | _ => false

/-- The function `canLog` (lines 308-316) with `Date.now()` passed as `now`;
returns the result and the history after the call. -/
def canLog (h : LogHistory) (id : Identifier) (now : Int) : Bool × LogHistory :=
  if truthy (h.get id.key) && withinSixtyMinutes now (h.get id.key) then (false, h)
  else (true, h.set id.key now)

/-- What `router.get('/log_fmlist')` does up to the point where the POST body
is assembled: it answers with a denial or goes on to dispatch. -/
inductive RelayOutcome where
  | respond (r : Response)
  | dispatch
  deriving DecidableEq, Repr

/-- The guards of `router.get('/log_fmlist')` (lines 318-336): `txLength` is
`dataHandler.dataToSend.txInfo.tx.length`, `fmlistIntegration` is
`serverConfig.extras?.fmlistIntegration` (`none` when undefined), `txId` is
`dataHandler.dataToSend.txInfo.id`. -/
def logFmlist (txLength : Nat) (fmlistIntegration : Option Bool) (txId : Identifier)
    (now : Int) (h : LogHistory) : RelayOutcome × LogHistory :=
  if txLength = 0 then
    (RelayOutcome.respond ⟨500, "No suitable transmitter to log."⟩, h)
  else if fmlistIntegration = some false then
    (RelayOutcome.respond ⟨500, "FMLIST Integration is not enabled on this server."⟩, h)
  else
    match canLog h txId now with
    | (false, h') =>
      (RelayOutcome.respond
        ⟨429, "ID " ++ txId.key ++ " was already logged recently. Please wait before logging again."⟩,
        h')
    | (true, h') => (RelayOutcome.dispatch, h')

/-! ## String substitutions -/

/-- The call `s.replace(/c/g, r)` for a single character `c`. -/
def replaceAllChar (c : Char) (r : List Char) (s : List Char) : List Char :=
  s.flatMap fun x => if x = c then r else [x]

/-- The call `s.replace(pat, r)` with a string pattern: only the first
occurrence of `pat` is replaced. -/
def replaceFirst (pat r : List Char) : List Char → List Char
  | [] => if pat.isPrefixOf [] then r else []
  | c :: s =>
    if pat.isPrefixOf (c :: s) then r ++ (c :: s).drop pat.length
    else c :: replaceFirst pat r s

/-! ## Regular expressions

`new RegExp(pattern, flags)` and `regex.test(s)` are built into the language.
The model reads a pattern into a syntax tree and matches by enumerating the
ways a term can consume a prefix of the input, which for `test` (no captures,
no backreferences) decides the same question as the backtracking matcher of
the language.

The reader covers the part of the pattern language that ban entries made of
address characters compile to, and more: literal characters, `\` before a
character that is not a letter or digit, classes `[...]` of characters and
ranges, groups `(...)` and `(?:...)`, alternation `|`, the quantifiers `?`,
`*`, `+`, `{n}`, `{n,}`, `{n,m}` and the anchors `^` and `$`.  Every other
pattern (negated classes, `.`, letter escapes, lookaround, lazy quantifiers,
characters outside ASCII, or text the language rejects with a `SyntaxError`)
is read as `none`: the model gives no answer for it.
-/

/-- One member of a character class. -/
inductive ClassItem where
  | single (c : Char)
  | range (lo hi : Char)
  deriving DecidableEq, Repr

/-- Abstract syntax of the supported patterns: `rep r min max` repeats `r`
at least `min` and at most `max` times (`none`: no upper bound), `bol` and
`eol` are the anchors `^` and `$`. -/
inductive Regex where
  | empty
  | char (c : Char)
  | cls (items : List ClassItem)
  | seq (a b : Regex)
  | alt (a b : Regex)
  | rep (r : Regex) (min : Nat) (max : Option Nat)
  | bol
  | eol
  deriving DecidableEq, Repr

/-- A list of terms read left to right. -/
def Regex.seqOf (l : List Regex) : Regex := l.foldr Regex.seq Regex.empty

/-- A nonempty list of alternatives, tried left to right. -/
def Regex.altOf : List Regex → Regex
  | [] => Regex.empty
  | [a] => a
  | a :: b :: l => Regex.alt a (Regex.altOf (b :: l))

/-- A disjunction under construction: finished alternatives and the terms of
the current one, both most recent first. -/
structure Frame where
  alts : List Regex
  cur : List Regex
  deriving DecidableEq, Repr

/-- The disjunction a frame stands for. -/
def Frame.close (f : Frame) : Regex :=
  Regex.altOf (Regex.seqOf f.cur.reverse :: f.alts).reverse

/-- What a character class has read since the last complete member. -/
inductive Pend where
  | none
  | one (c : Char)
  | dash (c : Char)
  deriving DecidableEq, Repr

/-- Where the pattern reader stands. -/
inductive Mode where
  | normal
  | escape
  | groupStart
  | groupQ
  | clsStart
  | cls (items : List ClassItem) (pend : Pend)
  | braceMin (n : Option Nat)
  | braceMax (min : Nat) (n : Option Nat)
  deriving DecidableEq, Repr

/-- State of the pattern reader: `quant` tells whether the last term may take
a quantifier, `top` is the innermost open disjunction, `stack` the enclosing
ones. -/
structure PState where
  mode : Mode
  quant : Bool
  top : Frame
  stack : List Frame
  deriving DecidableEq, Repr

/-- The reader before the first character. -/
def PState.init : PState := ⟨Mode.normal, false, ⟨[], []⟩, []⟩

/-- Append an atom to the current alternative. -/
def PState.push (st : PState) (r : Regex) (q : Bool) : PState :=
  { st with mode := Mode.normal, quant := q, top := { st.top with cur := r :: st.top.cur } }

/-- Apply a quantifier to the last term. -/
def PState.quantify (st : PState) (min : Nat) (max : Option Nat) : Option PState :=
  if st.quant then
    match st.top.cur with
    | [] => none
    | r :: rest =>
      some { st with mode := Mode.normal, quant := false,
                     top := { st.top with cur := Regex.rep r min max :: rest } }
  else none

/-- The value of a decimal digit. -/
def digitVal (c : Char) : Nat := c.toNat - 48

/-- One more digit of a number inside `{...}`. -/
def accDigit (n : Option Nat) (c : Char) : Option Nat :=
  match n with
  | none => some (digitVal c)
  | some m => some (10 * m + digitVal c)

/-- The members of a class at its closing `]`. -/
def Pend.flush (items : List ClassItem) : Pend → List ClassItem
  | Pend.none => items
  | Pend.one p => ClassItem.single p :: items
  | Pend.dash p => ClassItem.single '-' :: ClassItem.single p :: items

/-- One character read outside classes, escapes and braces. -/
def stepNormal (st : PState) (c : Char) : Option PState :=
  if c = '\\' then some { st with mode := Mode.escape }
  else if c = '(' then
    some { mode := Mode.groupStart, quant := false, top := ⟨[], []⟩, stack := st.top :: st.stack }
  else if c = ')' then
    match st.stack with
    | [] => none
    | f :: rest =>
      some { mode := Mode.normal, quant := true,
             top := { f with cur := st.top.close :: f.cur }, stack := rest }
  else if c = '|' then
    some { st with mode := Mode.normal, quant := false,
                   top := ⟨Regex.seqOf st.top.cur.reverse :: st.top.alts, []⟩ }
  else if c = '[' then some { st with mode := Mode.clsStart }
  else if c = '?' then st.quantify 0 (some 1)
  else if c = '*' then st.quantify 0 none
  else if c = '+' then st.quantify 1 none
  else if c = '{' then (if st.quant then some { st with mode := Mode.braceMin none } else none)
  else if c = '^' then some (st.push Regex.bol false)
  else if c = '$' then some (st.push Regex.eol false)
  else if c = '.' ∨ c = ']' ∨ c = '}' then none
  else some (st.push (Regex.char c) true)

/-- One character read inside a character class. -/
def stepClass (st : PState) (items : List ClassItem) (pend : Pend) (c : Char) : Option PState :=
  if c = ']' then some (st.push (Regex.cls (pend.flush items).reverse) true)
  else if c = '\\' then none
  else
    match pend with
    | Pend.none => some { st with mode := Mode.cls items (Pend.one c) }
    | Pend.one p =>
      if c = '-' then some { st with mode := Mode.cls items (Pend.dash p) }
      else some { st with mode := Mode.cls (ClassItem.single p :: items) (Pend.one c) }
    | Pend.dash p =>
      if p.toNat ≤ c.toNat then
        some { st with mode := Mode.cls (ClassItem.range p c :: items) Pend.none }
      else none

/-- One character of the pattern. -/
def step (st : PState) (c : Char) : Option PState :=
  if 128 ≤ c.toNat then none else
  match st.mode with
  | Mode.normal => stepNormal st c
  | Mode.escape => if c.isAlphanum then none else some (st.push (Regex.char c) true)
  | Mode.groupStart =>
    if c = '?' then some { st with mode := Mode.groupQ } else stepNormal st c
  | Mode.groupQ => if c = ':' then some { st with mode := Mode.normal } else none
  | Mode.clsStart => if c = '^' then none else stepClass st [] Pend.none c
  | Mode.cls items pend => stepClass st items pend c
  | Mode.braceMin n =>
    if c.isDigit then some { st with mode := Mode.braceMin (accDigit n c) }
    else if c = ',' then
      match n with
      | none => none
      | some m => some { st with mode := Mode.braceMax m none }
    else if c = '}' then
      match n with
      | none => none
      | some m => st.quantify m (some m)
    else none
  | Mode.braceMax min n =>
    if c.isDigit then some { st with mode := Mode.braceMax min (accDigit n c) }
    else if c = '}' then
      match n with
      | none => st.quantify min none
      | some mx => if min ≤ mx then st.quantify min (some mx) else none
    else none

/-- The reader run over a text. -/
def parseFrom (st : PState) : List Char → Option PState
  | [] => some st
  | c :: cs =>
    match step st c with
    | none => none
    | some st' => parseFrom st' cs

/-- The pattern read, provided every group, class, escape and brace is
closed. -/
def PState.finish (st : PState) : Option Regex :=
  match st.mode, st.stack with
  | Mode.normal, [] => some st.top.close
  | _, _ => none

/-- The syntax tree of `new RegExp(pattern)`. -/
def parse (pattern : List Char) : Option Regex :=
  match parseFrom PState.init pattern with
  | none => none
  | some st => st.finish

/-- The character `x` lies in the range `lo-hi`. -/
def inRange (lo hi x : Char) : Bool := decide (lo.toNat ≤ x.toNat) && decide (x.toNat ≤ hi.toNat)

/-- A pattern character against an input character; with the flag `i` the two
are compared after upper-casing (ASCII). -/
def charEq (ci : Bool) (p x : Char) : Bool :=
  if ci then p.toUpper == x.toUpper else p == x

/-- An input character against one member of a class; with the flag `i` a
range accepts a character when it holds either case of it. -/
def ClassItem.test (ci : Bool) (x : Char) : ClassItem → Bool
  | ClassItem.single c => charEq ci c x
  | ClassItem.range lo hi =>
    inRange lo hi x || (ci && (inRange lo hi x.toUpper || inRange lo hi x.toLower))

/-- Exactly `k` rounds of `f`: the inputs left after each way of doing them. -/
def iterate (f : List Char → List (List Char)) : Nat → List Char → List (List Char)
  | 0, s => [s]
  | k + 1, s => (f s).flatMap (iterate f k)

/-- At most `k` further rounds of `f`, each consuming at least one
character. -/
def optIterate (f : List Char → List (List Char)) : Nat → List Char → List (List Char)
  | 0, s => [s]
  | k + 1, s => ((f s).filter fun t => t.length < s.length).flatMap (optIterate f k) ++ [s]

/-- The inputs left after each way the term can match a prefix of `s`; `ci`
is the flag `i`, `n` the length of the whole input (for `^`). -/
def Regex.run (ci : Bool) (n : Nat) : Regex → List Char → List (List Char)
  | Regex.empty, s => [s]
  | Regex.char c, s =>
    match s with
    | [] => []
    | x :: t => if charEq ci c x then [t] else []
  | Regex.cls items, s =>
    match s with
    | [] => []
    | x :: t => if items.any (ClassItem.test ci x) then [t] else []
  | Regex.seq a b, s => (Regex.run ci n a s).flatMap (Regex.run ci n b)
  | Regex.alt a b, s => Regex.run ci n a s ++ Regex.run ci n b s
  | Regex.rep r min max, s =>
    (iterate (Regex.run ci n r) min s).flatMap fun t =>
      optIterate (Regex.run ci n r) (match max with | some m => m - min | none => t.length) t
  | Regex.bol, s => if s.length = n then [s] else []
  | Regex.eol, s => if s.isEmpty then [s] else []

/-- The call `regex.test(s)`: the pattern matches from some position of `s`. -/
def Regex.test (ci : Bool) (r : Regex) (s : List Char) : Bool :=
  s.tails.any fun t => !(r.run ci s.length t).isEmpty

/-- The calls `new RegExp(pattern, flags).test(s)`, with `ci` telling whether
`flags` is `'i'`. -/
def regExpTest (pattern : List Char) (ci : Bool) (s : List Char) : Option Bool :=
  (parse pattern).map fun r => r.test ci s

/-! ## The ban check of `router.get('/')` -/

/-- The template literal `regexPattern` of the IPv6 branch (lines 29-33):
the three `replace` calls in source order, between `^` and `$`. -/
def ipv6Pattern (bannedIp : List Char) : List Char :=
  '^' :: replaceFirst "::".toList "(?::[0-9a-fA-F]{0,4})*:?".toList
    (replaceAllChar '*' "[0-9a-fA-F]{1,4}".toList
      (replaceAllChar ':' "\\:".toList bannedIp)) ++ ['$']

/-- The template literal `regexPattern` of the IPv4 branch (lines 38-41). -/
def ipv4Pattern (bannedIp : List Char) : List Char :=
  '^' :: replaceAllChar '*' "(25[0-5]|2[0-4][0-9]|[01]?[0-9][0-9]?)".toList
      (replaceAllChar '.' "\\.".toList bannedIp) ++ ['$']

/-- The callback of `banlist.some` (lines 24-47) for one entry `bannedIp`
and the address `requestIp`. -/
def entryMatches (bannedIp requestIp : String) : Option Bool :=
  if '*' ∈ bannedIp.toList then
    if ':' ∈ bannedIp.toList then
      regExpTest (ipv6Pattern bannedIp.toList) true requestIp.toList
    else
      regExpTest (ipv4Pattern bannedIp.toList) false requestIp.toList
  else some (decide (bannedIp = requestIp))

/-- The constant `isBanned` (line 24): `serverConfig.webserver.banlist.some`
of the callback, entries tried in order until one matches. -/
def isBanned : List String → String → Option Bool
  | [], _ => some false
  | bannedIp :: rest, requestIp =>
    match entryMatches bannedIp requestIp with
    | none => none
    | some true => some true
    | some false => isBanned rest requestIp

/-! ## Vocabulary of the statements and proofs -/

/-- The invariant of the session flags: an administrator may also tune. -/
def Session.AdminImpliesTune (s : Session) : Prop :=
  s.isAdminAuthenticated = some true → s.isTuneAuthenticated = some true

/-- No two adjacent characters are both colons. -/
def NoColonPair (s : List Char) : Prop :=
  s.Chain' fun a b => ¬ (a = ':' ∧ b = ':')

/-- The group that the IPv4 branch substitutes for `*`. -/
def octetGroup : List Char := "(25[0-5]|2[0-4][0-9]|[01]?[0-9][0-9]?)".toList

/-- What the pattern reader makes of `octetGroup`. -/
def octetRegex : Regex :=
  Regex.alt
    (Regex.seqOf [Regex.char '2', Regex.char '5', Regex.cls [ClassItem.range '0' '5']])
    (Regex.alt
      (Regex.seqOf [Regex.char '2', Regex.cls [ClassItem.range '0' '4'],
        Regex.cls [ClassItem.range '0' '9']])
      (Regex.seqOf [Regex.rep (Regex.cls [ClassItem.single '0', ClassItem.single '1']) 0 (some 1),
        Regex.cls [ClassItem.range '0' '9'],
        Regex.rep (Regex.cls [ClassItem.range '0' '9']) 0 (some 1)]))

/-- The class that the IPv6 branch substitutes for `*`. -/
def hexGroup : List Char := "[0-9a-fA-F]{1,4}".toList

/-- What the pattern reader makes of `hexGroup`. -/
def hexRegex : Regex :=
  Regex.rep (Regex.cls [ClassItem.range '0' '9', ClassItem.range 'a' 'f',
    ClassItem.range 'A' 'F']) 1 (some 4)

/-- The characters with a meaning of their own in a pattern. -/
def specials : List Char :=
  ['\\', '(', ')', '|', '[', '?', '*', '+', '{', '^', '$', '.', ']', '}']

/-- The hexadecimal digits. -/
def hexDigits : List Char := "0123456789abcdefABCDEF".toList

/-- The text that the IPv6 branch makes of one character of an entry. -/
def tok6 (c : Char) : List Char :=
  if c = ':' then ['\\', ':'] else if c = '*' then hexGroup else [c]

/-- The term that the IPv6 pattern holds for one character of an entry. -/
def item6 (c : Char) : Regex := if c = '*' then hexRegex else Regex.char c

/-- The address character `c'` is the entry character `c` up to letter
case. -/
def CaseVariant (c c' : Char) : Prop := c' = c ∨ c' = c.toUpper ∨ c' = c.toLower

/-- `Fills6 P A`: the address `A` is the entry `P` with every `*` replaced by
one to four hexadecimal digits and every other character kept up to letter
case. -/
inductive Fills6 : List Char → List Char → Prop where
  | nil : Fills6 [] []
  | star {w P A : List Char} : 1 ≤ w.length → w.length ≤ 4 → (∀ c ∈ w, c ∈ hexDigits) →
      Fills6 P A → Fills6 ('*' :: P) (w ++ A)
  | lit {c c' : Char} {P A : List Char} : c ≠ '*' → CaseVariant c c' →
      Fills6 P A → Fills6 (c :: P) (c' :: A)

/-- The text that the IPv4 branch makes of one character of an entry. -/
def tok4 (c : Char) : List Char :=
  if c = '.' then ['\\', '.'] else if c = '*' then octetGroup else [c]

/-- The term that the IPv4 pattern holds for one character of an entry. -/
def item4 (c : Char) : Regex := if c = '*' then octetRegex else Regex.char c

/-- The number a string of decimal digits denotes. -/
def decimalValue (w : List Char) : Nat := w.foldl (fun n c => 10 * n + (c.toNat - 48)) 0

/-- A valid octet: one to three decimal digits that denote a number from 0
to 255. -/
def ValidOctet (w : List Char) : Prop :=
  1 ≤ w.length ∧ w.length ≤ 3 ∧ (∀ c ∈ w, c.isDigit = true) ∧ decimalValue w ≤ 255

/-- `Fills4 P A`: the address `A` is the entry `P` with every `*` replaced by
a valid octet. -/
def Fills4 : List Char → List Char → Prop
  | [], A => A = []
  | c :: P, A =>
    if c = '*' then ∃ w A', ValidOctet w ∧ A = w ++ A' ∧ Fills4 P A'
    else ∃ A', A = c :: A' ∧ Fills4 P A'

/-- A component of an IPv4 entry: the wildcard `*` or a literal of decimal
digits. -/
def IsComponent (p : String) : Prop := p = "*" ∨ ∀ c ∈ p.toList, c.isDigit = true

/-- The component `a` of an address meets the component `p` of an entry: at
a wildcard it is a valid octet, at a literal it equals the literal. -/
def ComponentOk (p a : String) : Prop :=
  (p = "*" ∧ ValidOctet a.toList) ∨ (p ≠ "*" ∧ a = p)

/-! # Theorems -/

/-! ## Sessions -/

theorem login_preserves (password : String) (cfg : PasswordConfig) (s : Session)
    (hs : s.AdminImpliesTune) : (login password cfg s).1.AdminImpliesTune := by
  unfold login authenticate
  by_cases h₁ : password = cfg.adminPass
  · rw [if_pos h₁]
    simp [Session.AdminImpliesTune]
  · by_cases h₂ : password = cfg.tunePass
    · rw [if_neg h₁, if_pos h₂]
      simp [Session.AdminImpliesTune]
    · rw [if_neg h₁, if_neg h₂]
      exact hs

theorem apply_preserves (ev : SessionEvent) (s : Session) (hs : s.AdminImpliesTune) :
    (ev.apply s).AdminImpliesTune := by
  cases ev with
  | login password cfg => exact login_preserves password cfg s hs
  | logout => simp [SessionEvent.apply, logout, Session.fresh, Session.AdminImpliesTune]

theorem foldl_preserves (evs : List SessionEvent) :
    ∀ s : Session, s.AdminImpliesTune → (evs.foldl SessionEvent.apply s).AdminImpliesTune := by
  induction evs with
  | nil => intro s hs; simpa using hs
  | cons ev evs ih =>
    intro s hs
    simpa using ih (ev.apply s) (apply_preserves ev s hs)

/-- C1: `authenticate` grants the admin tier when the password is `adminPass`,
the tune tier when it is `tunePass` and `tunePass` differs from `adminPass`,
and otherwise answers 403 with the fixed message and leaves the session as it
was; the `/login` route answers 200 exactly in the two granting cases. -/
theorem authenticate_contract (p : String) (cfg : PasswordConfig) (s : Session) :
    (p = cfg.adminPass →
      authenticate p cfg s = (⟨some true, some true⟩, Middleware.next) ∧
      login p cfg s =
        (⟨some true, some true⟩, ⟨200, "Logged in successfully, refreshing the page..."⟩)) ∧
    (p = cfg.tunePass → cfg.tunePass ≠ cfg.adminPass →
      authenticate p cfg s = (⟨some false, some true⟩, Middleware.next) ∧
      login p cfg s =
        (⟨some false, some true⟩, ⟨200, "Logged in successfully, refreshing the page..."⟩)) ∧
    (p ≠ cfg.adminPass → p ≠ cfg.tunePass →
      authenticate p cfg s =
        (s, Middleware.respond ⟨403, "Login failed. Wrong password?"⟩) ∧
      login p cfg s = (s, ⟨403, "Login failed. Wrong password?"⟩)) := by
  refine ⟨?_, ?_, ?_⟩
  · intro h
    simp [login, authenticate, h]
  · intro h hne
    have hp : p ≠ cfg.adminPass := by rw [h]; exact hne
    unfold login authenticate
    rw [if_neg hp, if_pos h]
    exact ⟨rfl, rfl⟩
  · intro h₁ h₂
    simp [login, authenticate, h₁, h₂]

/-- The three cases of `authenticate_contract` at the credentials
`("admin", "tune")` and a session that was granted the tune tier before. -/
theorem authenticate_contract_witness :
    authenticate "admin" ⟨"admin", "tune"⟩ ⟨some false, some true⟩
      = (⟨some true, some true⟩, Middleware.next) ∧
    authenticate "tune" ⟨"admin", "tune"⟩ ⟨none, none⟩
      = (⟨some false, some true⟩, Middleware.next) ∧
    authenticate "guess" ⟨"admin", "tune"⟩ ⟨some false, some true⟩
      = (⟨some false, some true⟩, Middleware.respond ⟨403, "Login failed. Wrong password?"⟩) :=
  ⟨((authenticate_contract "admin" ⟨"admin", "tune"⟩ ⟨some false, some true⟩).1 rfl).1,
   ((authenticate_contract "tune" ⟨"admin", "tune"⟩ ⟨none, none⟩).2.1 rfl (by decide)).1,
   ((authenticate_contract "guess" ⟨"admin", "tune"⟩ ⟨some false, some true⟩).2.2
      (by decide) (by decide)).1⟩

/-- C8: in every session reached from a fresh one by any sequence of login
attempts and logouts, `isAdminAuthenticated` being true implies
`isTuneAuthenticated` being true. -/
theorem admin_implies_tune (evs : List SessionEvent)
    (h : (runSession evs).isAdminAuthenticated = some true) :
    (runSession evs).isTuneAuthenticated = some true :=
  foldl_preserves evs Session.fresh (by simp [Session.fresh, Session.AdminImpliesTune]) h

/-- A tune login, a failed attempt, a logout and an admin login end in a
session with both flags set. -/
theorem admin_implies_tune_witness :
    (runSession [SessionEvent.login "tune" ⟨"admin", "tune"⟩,
        SessionEvent.login "guess" ⟨"admin", "tune"⟩, SessionEvent.logout,
        SessionEvent.login "admin" ⟨"admin", "tune"⟩]).isAdminAuthenticated = some true ∧
    (runSession [SessionEvent.login "tune" ⟨"admin", "tune"⟩,
        SessionEvent.login "guess" ⟨"admin", "tune"⟩, SessionEvent.logout,
        SessionEvent.login "admin" ⟨"admin", "tune"⟩]).isTuneAuthenticated = some true :=
  ⟨by decide, admin_implies_tune _ (by decide)⟩

/-! ## `canLog` -/

theorem set_other (h : LogHistory) (k k' : String) (now : Int) (hk : k' ≠ k) :
    h.set k now k' = h k' := by
  unfold LogHistory.set
  split
  · rfl
  · simp [hk]

theorem set_self (h : LogHistory) (k : String) (now : Int) (hk : k ≠ "__proto__") :
    h.set k now k = some now := by
  simp [LogHistory.set, hk]

theorem canLog_cases (h : LogHistory) (id : Identifier) (now : Int) :
    canLog h id now = (false, h) ∨ canLog h id now = (true, h.set id.key now) := by
  unfold canLog
  split
  · exact Or.inl rfl
  · exact Or.inr rfl

theorem canLog_snd_other (h : LogHistory) (a : Identifier) (t : Int) (k : String)
    (hk : k ≠ a.key) : (canLog h a t).2 k = h k := by
  rcases canLog_cases h a t with e | e
  · rw [e]
  · rw [e]
    exact set_other h a.key k t hk

theorem get_congr (h h' : LogHistory) (k : String) (hk : h' k = h k) : h'.get k = h.get k := by
  unfold LogHistory.get
  rw [hk]

theorem canLog_fst_congr (h h' : LogHistory) (b : Identifier) (t : Int)
    (hb : h' b.key = h b.key) : (canLog h' b t).1 = (canLog h b t).1 := by
  unfold canLog
  rw [get_congr h h' b.key hb]
  split <;> rfl

theorem canLog_of_none (h : LogHistory) (a : Identifier) (t : Int) (hn : h a.key = none) :
    canLog h a t = (true, h.set a.key t) := by
  have hg : h.get a.key = Stored.object ∨ h.get a.key = Stored.undefined := by
    unfold LogHistory.get
    rw [hn]
    by_cases h₁ : a.key = "__proto__"
    · exact Or.inl (by rw [if_pos h₁])
    · rw [if_neg h₁]
      by_cases h₂ : a.key ∈ inheritedKeys
      · exact Or.inl (by simp only [h₂, if_true])
      · exact Or.inr (by simp only [h₂, if_false])
  unfold canLog
  rcases hg with e | e <;> rw [e] <;> rfl

theorem canLog_empty (a : Identifier) (t : Int) :
    canLog LogHistory.empty a t = (true, LogHistory.empty.set a.key t) :=
  canLog_of_none LogHistory.empty a t rfl

theorem canLog_of_some (h : LogHistory) (a : Identifier) (now t : Int)
    (ha : a.key ≠ "__proto__") (hs : h a.key = some t) (ht : t ≠ 0) :
    canLog h a now
      = if now - t < sixtyMinutes then (false, h) else (true, h.set a.key now) := by
  have hg : h.get a.key = Stored.number t := by
    unfold LogHistory.get
    rw [if_neg ha, hs]
  unfold canLog
  rw [hg]
  by_cases hlt : now - t < sixtyMinutes
  · simp [truthy, withinSixtyMinutes, ht, hlt]
  · simp [truthy, withinSixtyMinutes, hlt]

/-- C2, as stated: `canLog` at two inputs the statement covers.  For the
identifier `"__proto__"` the call at `t = 1` is admitted but records nothing,
and the call one millisecond later is admitted again.  For the identifier
`"X"` a record of `0` is falsy in the guard `logHistory[id] && ...`, so the
call at `t = 1800 s` after a call at `t = 0` is admitted as well. -/
theorem canLog_proto_and_zero :
    ((canLog LogHistory.empty (Identifier.str "__proto__") 1).1 = true ∧
      (canLog LogHistory.empty (Identifier.str "__proto__") 1).2 "__proto__" = none ∧
      (canLog (canLog LogHistory.empty (Identifier.str "__proto__") 1).2
        (Identifier.str "__proto__") 2).1 = true) ∧
    ((canLog LogHistory.empty (Identifier.str "X") 0).1 = true ∧
      (canLog LogHistory.empty (Identifier.str "X") 0).2 "X" = some 0 ∧
      (1800000 : Int) - 0 < sixtyMinutes ∧
      (canLog (canLog LogHistory.empty (Identifier.str "X") 0).2
        (Identifier.str "X") 1800000).1 = true) := by
  have hp : (Identifier.str "__proto__").key = "__proto__" := rfl
  have hx : (Identifier.str "X").key = "X" := rfl
  have e₁ : (canLog LogHistory.empty (Identifier.str "__proto__") 1).2 = LogHistory.empty := by
    rw [canLog_empty, hp]
    rfl
  have e₂ : (canLog LogHistory.empty (Identifier.str "X") 0).2 = LogHistory.empty.set "X" 0 := by
    rw [canLog_empty, hx]
  refine ⟨⟨?_, ?_, ?_⟩, ?_, ?_, ?_, ?_⟩
  · rw [canLog_empty]
  · rw [e₁]; rfl
  · rw [e₁, canLog_empty]
  · rw [canLog_empty]
  · rw [e₂]; exact set_self _ _ _ (by decide)
  · decide
  · rw [e₂]
    have hg : (LogHistory.empty.set "X" 0).get "X" = Stored.number 0 := by
      unfold LogHistory.get
      rw [if_neg (by decide), set_self _ _ _ (by decide)]
    unfold canLog
    rw [hx, hg]
    rfl

/-- C2, amended: for an identifier whose key is not `__proto__` and a history
whose record for it, if any, is not `0`, `canLog` returns `true` exactly when
there is no record or at least sixty minutes have passed since the record,
and then the history afterwards holds `now` for the identifier; otherwise it
returns `false` and leaves the history as it was.  Hence, from the empty
history, calls at `t₀ ≠ 0`, at `t₀ + e` with `0 ≤ e < sixtyMinutes` and at
`t₀ + sixtyMinutes` return `true`, `false` and `true`. -/
theorem canLog_cooldown (id : Identifier) (h : LogHistory) (now : Int)
    (hid : id.key ≠ "__proto__") (h0 : h id.key ≠ some 0) :
    ((canLog h id now).1 = true
      ↔ h id.key = none ∨ ∃ t, h id.key = some t ∧ sixtyMinutes ≤ now - t) ∧
    ((canLog h id now).1 = true →
      (canLog h id now).2 = h.set id.key now ∧ (canLog h id now).2 id.key = some now) ∧
    ((canLog h id now).1 = false → (canLog h id now).2 = h) ∧
    (∀ t₀ e : Int, t₀ ≠ 0 → 0 ≤ e → e < sixtyMinutes →
      (canLog LogHistory.empty id t₀).1 = true ∧
      (canLog (canLog LogHistory.empty id t₀).2 id (t₀ + e)).1 = false ∧
      (canLog (canLog (canLog LogHistory.empty id t₀).2 id (t₀ + e)).2 id
        (t₀ + sixtyMinutes)).1 = true) ∧
    sixtyMinutes = 60 * 60 * 1000 := by
  refine ⟨?_, ?_, ?_, ?_, rfl⟩
  · cases hs : h id.key with
    | none =>
      rw [canLog_of_none h id now hs]
      simp
    | some t =>
      have ht : t ≠ 0 := fun e => h0 (by rw [hs, e])
      rw [canLog_of_some h id now t hid hs ht]
      by_cases hlt : now - t < sixtyMinutes
      · rw [if_pos hlt]
        simp only [Bool.false_eq_true, false_iff, not_or, not_exists, not_and]
        refine ⟨by simp, ?_⟩
        intro t' ht' hle
        have : t' = t := by simpa using ht'.symm
        omega
      · rw [if_neg hlt]
        simp only [true_iff]
        exact Or.inr ⟨t, rfl, by omega⟩
  · intro hr
    rcases canLog_cases h id now with e | e
    · rw [e] at hr; simp at hr
    · rw [e]; exact ⟨rfl, set_self h id.key now hid⟩
  · intro hr
    rcases canLog_cases h id now with e | e
    · rw [e]
    · rw [e] at hr; simp at hr
  · intro t₀ e ht₀ he₀ he
    have e₁ : canLog LogHistory.empty id t₀ = (true, LogHistory.empty.set id.key t₀) :=
      canLog_empty id t₀
    have hrec : (LogHistory.empty.set id.key t₀) id.key = some t₀ := set_self _ _ _ hid
    have e₂ : canLog (LogHistory.empty.set id.key t₀) id (t₀ + e)
        = (false, LogHistory.empty.set id.key t₀) := by
      rw [canLog_of_some _ id (t₀ + e) t₀ hid hrec ht₀, if_pos (by omega)]
    have e₃ : (canLog (LogHistory.empty.set id.key t₀) id (t₀ + sixtyMinutes)).1 = true := by
      rw [canLog_of_some _ id (t₀ + sixtyMinutes) t₀ hid hrec ht₀, if_neg (by omega)]
    rw [e₁]
    refine ⟨rfl, ?_, ?_⟩
    · simp only [e₂]
    · simp only [e₂, e₃]

/-- The identifier `"X"`: a first call at `t = 1 ms`, a second one `1800 s`
later and a third one sixty minutes after the first. -/
theorem canLog_cooldown_witness :
    (canLog LogHistory.empty (Identifier.str "X") 1).1 = true ∧
    (canLog (canLog LogHistory.empty (Identifier.str "X") 1).2 (Identifier.str "X")
      (1 + 1800000)).1 = false ∧
    (canLog (canLog (canLog LogHistory.empty (Identifier.str "X") 1).2 (Identifier.str "X")
      (1 + 1800000)).2 (Identifier.str "X") (1 + sixtyMinutes)).1 = true :=
  (canLog_cooldown (Identifier.str "X") LogHistory.empty 0 (by decide)
    (by simp [LogHistory.empty])).2.2.2.1 1 1800000 (by decide) (by decide) (by decide)

/-- C6, as stated: the integer `1` and the string `"1"` are different
identifiers, yet after a call for the first a call for the second at the
same time is denied, while on its own it is admitted. -/
theorem canLog_int_str_collide :
    Identifier.int 1 (by decide) ≠ Identifier.str "1" ∧
    (canLog LogHistory.empty (Identifier.int 1 (by decide)) 5).1 = true ∧
    (canLog LogHistory.empty (Identifier.str "1") 5).1 = true ∧
    (canLog (canLog LogHistory.empty (Identifier.int 1 (by decide)) 5).2
      (Identifier.str "1") 5).1 = false := by
  have hk : (Identifier.int 1 (by decide)).key = "1" := by decide
  have hs : (Identifier.str "1").key = "1" := rfl
  have hrec : (LogHistory.empty.set "1" 5) "1" = some 5 := set_self _ _ _ (by decide)
  refine ⟨by decide, ?_, ?_, ?_⟩
  · rw [canLog_empty]
  · rw [canLog_empty]
  · rw [canLog_empty, hk]
    rw [canLog_of_some _ (Identifier.str "1") 5 5 (by decide) hrec (by decide)]
    rfl

/-- C6, amended: for identifiers (strings or safe integers) with different
property keys, a call for `a` changes neither the record of `b` nor the
result of a later call for `b`, and from the empty history both are admitted
at the same time in either order. -/
theorem canLog_frame (a b : Identifier) (hk : a.key ≠ b.key) (h : LogHistory) (t t' : Int) :
    (canLog h a t).2 b.key = h b.key ∧
    (canLog (canLog h a t).2 b t').1 = (canLog h b t').1 ∧
    ((canLog LogHistory.empty a t).1 = true ∧
      (canLog (canLog LogHistory.empty a t).2 b t).1 = true) ∧
    ((canLog LogHistory.empty b t).1 = true ∧
      (canLog (canLog LogHistory.empty b t).2 a t).1 = true) := by
  have hab : (canLog h a t).2 b.key = h b.key := canLog_snd_other h a t b.key (Ne.symm hk)
  refine ⟨hab, canLog_fst_congr _ _ b t' hab, ⟨?_, ?_⟩, ⟨?_, ?_⟩⟩
  · rw [canLog_empty]
  · rw [canLog_fst_congr LogHistory.empty _ b t
      (canLog_snd_other LogHistory.empty a t b.key (Ne.symm hk)), canLog_empty]
  · rw [canLog_empty]
  · rw [canLog_fst_congr LogHistory.empty _ a t
      (canLog_snd_other LogHistory.empty b t a.key hk), canLog_empty]

/-- The identifiers `"A"` and `"B"` at time `7`, on a history that holds a
record for `"B"`, and the integer `10` against the string `"1e+1"`. -/
theorem canLog_frame_witness :
    (canLog (LogHistory.empty.set "B" 3) (Identifier.str "A") 7).2 "B" = some 3 ∧
    (canLog LogHistory.empty (Identifier.str "A") 7).1 = true ∧
    (canLog (canLog LogHistory.empty (Identifier.str "A") 7).2 (Identifier.str "B") 7).1 = true ∧
    (canLog (canLog LogHistory.empty (Identifier.int 10 (by decide)) 7).2
      (Identifier.str "1e+1") 7).1 = true :=
  ⟨(canLog_frame (Identifier.str "A") (Identifier.str "B") (by decide)
      (LogHistory.empty.set "B" 3) 7 7).1.trans (set_self _ _ _ (by decide)),
   (canLog_frame (Identifier.str "A") (Identifier.str "B") (by decide)
      LogHistory.empty 7 7).2.2.1.1,
   (canLog_frame (Identifier.str "A") (Identifier.str "B") (by decide)
      LogHistory.empty 7 7).2.2.1.2,
   (canLog_frame (Identifier.int 10 (by decide)) (Identifier.str "1e+1") (by decide)
      LogHistory.empty 7 7).2.2.1.2⟩

/-! ## The relay route -/

theorem id_message_ne (k : String) (m : String) (hm : m.data.head? ≠ some 'I') :
    m ≠ "ID " ++ k ++ " was already logged recently. Please wait before logging again." := by
  intro h
  apply hm
  rw [h]
  simp [String.data_append]

/-- C9, as stated: the no-target denial and the feature-disabled denial
carry the same status code. -/
theorem relay_denials_share_status :
    ∃ r₁ r₂ : Response,
      (logFmlist 0 (some true) (Identifier.str "X") 0 LogHistory.empty).1
        = RelayOutcome.respond r₁ ∧
      (logFmlist 1 (some false) (Identifier.str "X") 0 LogHistory.empty).1
        = RelayOutcome.respond r₂ ∧
      r₁.status = 500 ∧ r₂.status = 500 ∧ r₁.status = r₂.status :=
  ⟨⟨500, "No suitable transmitter to log."⟩,
   ⟨500, "FMLIST Integration is not enabled on this server."⟩,
   by simp [logFmlist], by simp [logFmlist], rfl, rfl, rfl⟩

/-- C9, amended: the three denials of `/log_fmlist` carry pairwise different
messages; the rate-limited one has status 429, which differs from the status
500 shared by the no-target and the feature-disabled denial. -/
theorem relay_denials (n₂ n₃ : Nat) (f₁ f₃ : Option Bool) (id₁ id₂ id₃ : Identifier)
    (t₁ t₂ t₃ : Int) (h₁ h₂ h₃ : LogHistory)
    (hn₂ : n₂ ≠ 0) (hn₃ : n₃ ≠ 0) (hf₃ : f₃ ≠ some false)
    (hd : (canLog h₃ id₃ t₃).1 = false) :
    ∃ m₁ m₂ m₃ : String,
      (logFmlist 0 f₁ id₁ t₁ h₁).1 = RelayOutcome.respond ⟨500, m₁⟩ ∧
      (logFmlist n₂ (some false) id₂ t₂ h₂).1 = RelayOutcome.respond ⟨500, m₂⟩ ∧
      (logFmlist n₃ f₃ id₃ t₃ h₃).1 = RelayOutcome.respond ⟨429, m₃⟩ ∧
      m₁ ≠ m₂ ∧ m₁ ≠ m₃ ∧ m₂ ≠ m₃ ∧ (429 : Nat) ≠ 500 := by
  refine ⟨"No suitable transmitter to log.",
    "FMLIST Integration is not enabled on this server.",
    "ID " ++ id₃.key ++ " was already logged recently. Please wait before logging again.",
    by simp [logFmlist], by simp [logFmlist, hn₂], ?_, by decide,
    id_message_ne _ _ (by decide), id_message_ne _ _ (by decide), by decide⟩
  unfold logFmlist
  rw [if_neg hn₃, if_neg hf₃]
  cases hc : canLog h₃ id₃ t₃ with
  | mk r h' =>
    rw [hc] at hd
    simp only at hd
    subst hd
    rfl

/-- The three denials for transmitter `"X"`: no target, relay disabled, and a
second request half an hour after a first one at `t = 1 ms`. -/
theorem relay_denials_witness :
    ∃ m₁ m₂ m₃ : String,
      (logFmlist 0 none (Identifier.str "X") 1 LogHistory.empty).1
        = RelayOutcome.respond ⟨500, m₁⟩ ∧
      (logFmlist 1 (some false) (Identifier.str "X") 1 LogHistory.empty).1
        = RelayOutcome.respond ⟨500, m₂⟩ ∧
      (logFmlist 1 none (Identifier.str "X") 1800001 (LogHistory.empty.set "X" 1)).1
        = RelayOutcome.respond ⟨429, m₃⟩ ∧
      m₁ ≠ m₂ ∧ m₁ ≠ m₃ ∧ m₂ ≠ m₃ ∧ (429 : Nat) ≠ 500 :=
  relay_denials 1 1 none none (Identifier.str "X") (Identifier.str "X") (Identifier.str "X")
    1 1 1800001 LogHistory.empty LogHistory.empty (LogHistory.empty.set "X" 1)
    (by decide) (by decide) (by decide)
    (by
      rw [canLog_of_some (LogHistory.empty.set "X" 1) (Identifier.str "X") 1800001 1
        (by decide) (set_self LogHistory.empty "X" 1 (by decide)) (by decide)]
      rfl)

/-! ## The ban check: exact entries and the IPv6 substitutions -/

/-- C5: for an entry `E` without `*`, the ban check of the list `[E]` answers
`true` exactly when the address equals `E` as a string, and `false`
otherwise. -/
theorem isBanned_exact (A E : String) (hE : '*' ∉ E.toList) :
    (isBanned [E] A = some true ↔ A = E) ∧ (isBanned [E] A = some false ↔ A ≠ E) := by
  unfold isBanned entryMatches
  rw [if_neg hE]
  by_cases h : E = A
  · simp [h, isBanned]
  · have h' : ¬ A = E := fun e => h e.symm
    simp [h, h', isBanned]

/-- The entry `"10.0.0.1"` bans `"10.0.0.1"`; the entry `"2001:DB8::1"` does not
ban the same address written in lower case. -/
theorem isBanned_exact_witness :
    isBanned ["10.0.0.1"] "10.0.0.1" = some true ∧
    isBanned ["2001:DB8::1"] "2001:db8::1" = some false :=
  ⟨(isBanned_exact "10.0.0.1" "10.0.0.1" (by decide)).1.2 rfl,
   (isBanned_exact "2001:db8::1" "2001:DB8::1" (by decide)).2.2 (by decide)⟩

theorem replaceFirst_noColonPair (r : List Char) :
    ∀ s : List Char, NoColonPair s → replaceFirst [':', ':'] r s = s := by
  intro s
  induction s with
  | nil => intro _; rfl
  | cons c s ih =>
    intro hs
    have htail : NoColonPair s := List.Chain'.tail hs
    unfold replaceFirst
    have hpre : List.isPrefixOf [':', ':'] (c :: s) = false := by
      cases s with
      | nil => simp [List.isPrefixOf]
      | cons d s =>
        have hcd : ¬ (c = ':' ∧ d = ':') := (List.chain'_cons.1 hs).1
        simp only [List.isPrefixOf, Bool.and_true]
        by_cases hc : c = ':'
        · have hd : ¬ d = ':' := fun hd => hcd ⟨hc, hd⟩
          have hd' : ¬ ':' = d := fun e => hd e.symm
          simp [hd']
        · have hc' : ¬ ':' = c := fun e => hc e.symm
          simp [hc']
    rw [hpre]
    simp [ih htail]

theorem escapeColons_shape (p : List Char) :
    NoColonPair (replaceAllChar ':' ['\\', ':'] p) ∧
      (replaceAllChar ':' ['\\', ':'] p).head? ≠ some ':' := by
  induction p with
  | nil => simp [replaceAllChar, NoColonPair]
  | cons x p ih =>
    have hcons : replaceAllChar ':' ['\\', ':'] (x :: p)
        = (if x = ':' then ['\\', ':'] else [x]) ++ replaceAllChar ':' ['\\', ':'] p := by
      simp [replaceAllChar]
    rw [hcons]
    obtain ⟨ih₁, ih₂⟩ := ih
    have hhead : ∀ y ∈ (replaceAllChar ':' ['\\', ':'] p).head?, ¬ y = ':' := by
      intro y hy e
      apply ih₂
      rw [Option.mem_def] at hy
      rw [hy, e]
    by_cases hx : x = ':'
    · rw [if_pos hx]
      refine ⟨?_, by simp⟩
      show List.Chain' _ ('\\' :: ':' :: replaceAllChar ':' ['\\', ':'] p)
      refine List.chain'_cons.2 ⟨by simp, ?_⟩
      refine List.chain'_cons'.2 ⟨?_, ih₁⟩
      intro y hy hc
      exact hhead y hy hc.2
    · rw [if_neg hx]
      refine ⟨?_, by simpa using hx⟩
      show List.Chain' _ (x :: replaceAllChar ':' ['\\', ':'] p)
      refine List.chain'_cons'.2 ⟨?_, ih₁⟩
      intro y _ hc
      exact hx hc.1

theorem hexClass_noColonPair (u : List Char) (hu : NoColonPair u) :
    NoColonPair ("[0-9a-fA-F]{1,4}".toList ++ u) := by
  unfold NoColonPair
  rw [List.chain'_append]
  refine ⟨?_, hu, ?_⟩
  · have e : "[0-9a-fA-F]{1,4}".toList
        = ['[', '0', '-', '9', 'a', '-', 'f', 'A', '-', 'F', ']', '{', '1', ',', '4', '}'] := rfl
    rw [e]
    simp
  intro x hx y _ hc
  have : x = '}' := by
    have : "[0-9a-fA-F]{1,4}".toList.getLast? = some '}' := by decide
    rw [this] at hx
    simpa using hx.symm
  rw [this] at hc
  exact absurd hc.1 (by decide)

theorem fillWildcards_shape (s : List Char) (hs : NoColonPair s) :
    NoColonPair (replaceAllChar '*' "[0-9a-fA-F]{1,4}".toList s) ∧
      ((replaceAllChar '*' "[0-9a-fA-F]{1,4}".toList s).head? = some ':' →
        s.head? = some ':') := by
  induction s with
  | nil => simp [replaceAllChar, NoColonPair]
  | cons x s ih =>
    have hcons : replaceAllChar '*' "[0-9a-fA-F]{1,4}".toList (x :: s)
        = (if x = '*' then "[0-9a-fA-F]{1,4}".toList else [x])
          ++ replaceAllChar '*' "[0-9a-fA-F]{1,4}".toList s := by
      simp [replaceAllChar]
    rw [hcons]
    obtain ⟨ih₁, ih₂⟩ := ih (List.Chain'.tail hs)
    by_cases hx : x = '*'
    · rw [if_pos hx]
      refine ⟨hexClass_noColonPair _ ih₁, ?_⟩
      intro h
      simp at h
    · rw [if_neg hx]
      refine ⟨?_, by simp⟩
      show List.Chain' _ (x :: replaceAllChar '*' "[0-9a-fA-F]{1,4}".toList s)
      refine List.chain'_cons'.2 ⟨?_, ih₁⟩
      intro y hy hc
      rw [Option.mem_def] at hy
      rw [hc.2] at hy
      have hs' := ih₂ hy
      cases s with
      | nil => simp at hs'
      | cons d s =>
        simp at hs'
        exact (List.chain'_cons.1 hs).1 ⟨hc.1, hs'⟩

/-- C10: once every `:` of the entry is escaped and every `*` is replaced by
the hex-digit class, the text has no two adjacent colons, so the substitution
of `'::'` returns it unchanged and the compiled IPv6 pattern is that text
between `^` and `$`. -/
theorem ipv6Pattern_zero_compression_inert (p : String) :
    NoColonPair (replaceAllChar '*' "[0-9a-fA-F]{1,4}".toList
      (replaceAllChar ':' "\\:".toList p.toList)) ∧
    replaceFirst "::".toList "(?::[0-9a-fA-F]{0,4})*:?".toList
        (replaceAllChar '*' "[0-9a-fA-F]{1,4}".toList
          (replaceAllChar ':' "\\:".toList p.toList))
      = replaceAllChar '*' "[0-9a-fA-F]{1,4}".toList
          (replaceAllChar ':' "\\:".toList p.toList) ∧
    ipv6Pattern p.toList
      = '^' :: replaceAllChar '*' "[0-9a-fA-F]{1,4}".toList
          (replaceAllChar ':' "\\:".toList p.toList) ++ ['$'] := by
  have h := (fillWildcards_shape _ (escapeColons_shape p.toList).1).1
  have h' := replaceFirst_noColonPair "(?::[0-9a-fA-F]{0,4})*:?".toList _ h
  refine ⟨h, h', ?_⟩
  unfold ipv6Pattern
  exact congrArg (fun t => '^' :: t ++ ['$']) h'

/-! ## Reading compiled patterns -/

theorem parseFrom_append (a b : List Char) :
    ∀ st : PState, parseFrom st (a ++ b)
      = match parseFrom st a with
        | none => none
        | some st' => parseFrom st' b := by
  induction a with
  | nil => intro st; rfl
  | cons c a ih =>
    intro st
    simp only [List.cons_append, parseFrom]
    cases step st c with
    | none => rfl
    | some st' => exact ih st'

theorem parseFrom_octetGroup (q : Bool) (top : Frame) (stack : List Frame) :
    parseFrom ⟨Mode.normal, q, top, stack⟩ octetGroup
      = some ⟨Mode.normal, true, { top with cur := octetRegex :: top.cur }, stack⟩ := by
  rfl

theorem parseFrom_hexGroup (q : Bool) (top : Frame) (stack : List Frame) :
    parseFrom ⟨Mode.normal, q, top, stack⟩ hexGroup
      = some ⟨Mode.normal, false, { top with cur := hexRegex :: top.cur }, stack⟩ := by
  rfl

theorem parseFrom_escaped (c : Char) (hc : c.isAlphanum = false) (ha : c.toNat < 128)
    (q : Bool) (top : Frame) (stack : List Frame) :
    parseFrom ⟨Mode.normal, q, top, stack⟩ ['\\', c]
      = some ⟨Mode.normal, true, { top with cur := Regex.char c :: top.cur }, stack⟩ := by
  have ha' : ¬ 128 ≤ c.toNat := by omega
  have hb : ¬ 128 ≤ '\\'.toNat := by decide
  simp [parseFrom, step, stepNormal, hc, ha', hb, PState.push]

theorem parseFrom_literal (c : Char) (hc : c ∉ specials) (ha : c.toNat < 128) (q : Bool)
    (top : Frame) (stack : List Frame) :
    parseFrom ⟨Mode.normal, q, top, stack⟩ [c]
      = some ⟨Mode.normal, true, { top with cur := Regex.char c :: top.cur }, stack⟩ := by
  have ha' : ¬ 128 ≤ c.toNat := by omega
  simp [specials] at hc
  simp [parseFrom, step, stepNormal, hc, ha', PState.push]

theorem hexDigits_not_special : ∀ c ∈ hexDigits, c ∉ specials ∧ c.toNat < 128 := by decide

theorem parseFrom_tok6 (P : List Char) (hP : ∀ c ∈ P, c = '*' ∨ c = ':' ∨ c ∈ hexDigits) :
    ∀ (q : Bool) (top : Frame) (stack : List Frame),
      ∃ q', parseFrom ⟨Mode.normal, q, top, stack⟩ (P.flatMap tok6)
        = some ⟨Mode.normal, q', { top with cur := (P.map item6).reverse ++ top.cur }, stack⟩ := by
  induction P with
  | nil => intro q top stack; exact ⟨q, rfl⟩
  | cons c P ih =>
    intro q top stack
    have hP' : ∀ c ∈ P, c = '*' ∨ c = ':' ∨ c ∈ hexDigits :=
      fun d hd => hP d (List.mem_cons_of_mem c hd)
    rw [List.flatMap_cons, parseFrom_append]
    rcases hP c (List.mem_cons_self c P) with h | h | h
    · subst h
      have e : tok6 '*' = hexGroup := rfl
      rw [e, parseFrom_hexGroup]
      obtain ⟨q', hq'⟩ := ih hP' false { top with cur := hexRegex :: top.cur } stack
      refine ⟨q', ?_⟩
      simp only [hq']
      simp [item6]
    · subst h
      have e : tok6 ':' = ['\\', ':'] := rfl
      rw [e, parseFrom_escaped ':' (by decide) (by decide)]
      obtain ⟨q', hq'⟩ := ih hP' true { top with cur := Regex.char ':' :: top.cur } stack
      refine ⟨q', ?_⟩
      simp only [hq']
      simp [item6]
    · obtain ⟨hs, ha⟩ := hexDigits_not_special c h
      have h₁ : c ≠ ':' := by
        intro e; subst e; revert h; decide
      have h₂ : c ≠ '*' := by
        intro e; subst e; revert h; decide
      have e : tok6 c = [c] := by simp [tok6, h₁, h₂]
      rw [e, parseFrom_literal c hs ha]
      obtain ⟨q', hq'⟩ := ih hP' true { top with cur := Regex.char c :: top.cur } stack
      refine ⟨q', ?_⟩
      simp only [hq']
      simp [item6, h₂]

theorem seqOf_singleton_close (l : List Regex) :
    Frame.close ⟨[], l⟩ = Regex.seqOf l.reverse := by
  simp [Frame.close, Regex.altOf]

theorem parse_anchored (body : List Char) (items : List Regex)
    (h : ∀ (q : Bool) (top : Frame) (stack : List Frame),
      ∃ q', parseFrom ⟨Mode.normal, q, top, stack⟩ body
        = some ⟨Mode.normal, q', { top with cur := items.reverse ++ top.cur }, stack⟩) :
    parse ('^' :: body ++ ['$']) = some (Regex.seqOf (Regex.bol :: items ++ [Regex.eol])) := by
  obtain ⟨q', hq'⟩ := h false ⟨[], [Regex.bol]⟩ []
  have h₁ : step PState.init '^' = some ⟨Mode.normal, false, ⟨[], [Regex.bol]⟩, []⟩ := rfl
  unfold parse
  rw [List.cons_append]
  simp only [parseFrom, h₁]
  rw [parseFrom_append, hq']
  have hd : ¬ 128 ≤ '$'.toNat := by decide
  simp [parseFrom, step, stepNormal, hd, PState.push, PState.finish, seqOf_singleton_close]

/-! ## Matching -/

theorem run_seqOf_cons (ci : Bool) (n : Nat) (r : Regex) (l : List Regex) (s : List Char) :
    Regex.run ci n (Regex.seqOf (r :: l)) s
      = (Regex.run ci n r s).flatMap (Regex.run ci n (Regex.seqOf l)) := rfl

theorem mem_run_seqOf_cons {ci : Bool} {n : Nat} {r : Regex} {l : List Regex}
    {s u v : List Char} (h₁ : u ∈ Regex.run ci n r s)
    (h₂ : v ∈ Regex.run ci n (Regex.seqOf l) u) :
    v ∈ Regex.run ci n (Regex.seqOf (r :: l)) s := by
  rw [run_seqOf_cons]
  exact List.mem_flatMap.2 ⟨u, h₁, h₂⟩

theorem hexClass_test :
    ∀ c ∈ hexDigits, [ClassItem.range '0' '9', ClassItem.range 'a' 'f',
      ClassItem.range 'A' 'F'].any (ClassItem.test true c) = true := by decide

theorem charEq_caseVariant_hex :
    ∀ c ∈ ':' :: hexDigits, charEq true c c = true ∧ charEq true c c.toUpper = true ∧
      charEq true c c.toLower = true := by decide

theorem run_hexClass (n : Nat) (c : Char) (hc : c ∈ hexDigits) (s : List Char) :
    Regex.run true n (Regex.cls [ClassItem.range '0' '9', ClassItem.range 'a' 'f',
      ClassItem.range 'A' 'F']) (c :: s) = [s] := by
  simp only [Regex.run, hexClass_test c hc, if_true]

theorem mem_optIterate_self (f : List Char → List (List Char)) (k : Nat) (s : List Char) :
    s ∈ optIterate f k s := by
  cases k <;> simp [optIterate]

theorem run_rep (ci : Bool) (n : Nat) (r : Regex) (min : Nat) (max : Option Nat)
    (s : List Char) :
    Regex.run ci n (Regex.rep r min max) s
      = (iterate (Regex.run ci n r) min s).flatMap fun t =>
          optIterate (Regex.run ci n r)
            (match max with
              | some m => m - min
              | none => t.length) t := by
  rw [Regex.run]

theorem mem_optIterate_of_steps (f : List Char → List (List Char)) (s : List Char) :
    ∀ (w : List Char) (k : Nat), w.length ≤ k → (∀ c ∈ w, ∀ t, f (c :: t) = [t]) →
      s ∈ optIterate f k (w ++ s) := by
  intro w
  induction w with
  | nil => intro k _ _; exact mem_optIterate_self f k s
  | cons c w ih =>
    intro k hk hf
    cases k with
    | zero => simp at hk
    | succ k =>
      have hk' : w.length ≤ k := by simpa using hk
      have hf' : ∀ c ∈ w, ∀ t, f (c :: t) = [t] := fun d hd => hf d (List.mem_cons_of_mem _ hd)
      have hc : f (c :: (w ++ s)) = [w ++ s] := hf c (List.mem_cons_self c w) _
      rw [List.cons_append, optIterate, hc]
      simp [ih k hk' hf']

theorem mem_run_hexRegex (n : Nat) (w : List Char) (h₁ : 1 ≤ w.length) (h₄ : w.length ≤ 4)
    (hw : ∀ c ∈ w, c ∈ hexDigits) (s : List Char) :
    s ∈ Regex.run true n hexRegex (w ++ s) := by
  cases w with
  | nil => simp at h₁
  | cons c w =>
    have hk : w.length ≤ 3 := by simpa using h₄
    have hf : ∀ d ∈ c :: w, ∀ t, Regex.run true n (Regex.cls [ClassItem.range '0' '9',
        ClassItem.range 'a' 'f', ClassItem.range 'A' 'F']) (d :: t) = [t] :=
      fun d hd t => run_hexClass n d (hw d hd) t
    have hc := hf c (List.mem_cons_self c w) (w ++ s)
    have hrest := mem_optIterate_of_steps _ s w 3 hk
      (fun d hd => hf d (List.mem_cons_of_mem _ hd))
    unfold hexRegex
    rw [run_rep, List.cons_append]
    simp only [iterate, hc, List.flatMap_cons, List.flatMap_nil, List.append_nil]
    exact hrest

theorem run_items6 {P A : List Char} (hF : Fills6 P A)
    (hP : ∀ c ∈ P, c = '*' ∨ c = ':' ∨ c ∈ hexDigits) (n : Nat) (k : List Regex)
    (u v : List Char) (hv : v ∈ Regex.run true n (Regex.seqOf k) u) :
    v ∈ Regex.run true n (Regex.seqOf (P.map item6 ++ k)) (A ++ u) := by
  induction hF with
  | nil => simpa using hv
  | @star w P A h₁ h₄ hw _ ih =>
    have hP' : ∀ c ∈ P, c = '*' ∨ c = ':' ∨ c ∈ hexDigits :=
      fun d hd => hP d (List.mem_cons_of_mem _ hd)
    have e : ('*' :: P).map item6 ++ k = hexRegex :: (P.map item6 ++ k) := by
      simp [item6]
    rw [e, List.append_assoc]
    exact mem_run_seqOf_cons (mem_run_hexRegex n w h₁ h₄ hw (A ++ u)) (ih hP')
  | @lit c c' P A hc hv' _ ih =>
    have hP' : ∀ c ∈ P, c = '*' ∨ c = ':' ∨ c ∈ hexDigits :=
      fun d hd => hP d (List.mem_cons_of_mem _ hd)
    have e : (c :: P).map item6 ++ k = Regex.char c :: (P.map item6 ++ k) := by
      simp [item6, hc]
    have hmem : c ∈ ':' :: hexDigits := by
      rcases hP c (List.mem_cons_self c P) with h | h | h
      · exact absurd h hc
      · rw [h]; exact List.mem_cons_self _ _
      · exact List.mem_cons_of_mem _ h
    have hEq : charEq true c c' = true := by
      obtain ⟨e₁, e₂, e₃⟩ := charEq_caseVariant_hex c hmem
      rcases hv' with h | h | h <;> rw [h] <;> assumption
    rw [e, List.cons_append]
    refine mem_run_seqOf_cons (u := A ++ u) ?_ (ih hP')
    simp [Regex.run, hEq]

theorem test_anchored_of_mem (ci : Bool) (items : List Regex) (s : List Char)
    (h : [] ∈ Regex.run ci s.length (Regex.seqOf (items ++ [Regex.eol])) s) :
    Regex.test ci (Regex.seqOf (Regex.bol :: items ++ [Regex.eol])) s = true := by
  unfold Regex.test
  rw [List.any_eq_true]
  refine ⟨s, (List.mem_tails _ _).2 (List.suffix_refl s), ?_⟩
  have e : Regex.run ci s.length (Regex.seqOf (Regex.bol :: items ++ [Regex.eol])) s
      = Regex.run ci s.length (Regex.seqOf (items ++ [Regex.eol])) s := by
    rw [List.cons_append, run_seqOf_cons]
    simp [Regex.run]
  rw [e]
  cases hr : Regex.run ci s.length (Regex.seqOf (items ++ [Regex.eol])) s with
  | nil => rw [hr] at h; simp at h
  | cons _ _ => rfl

theorem ipv6Pattern_eq (P : List Char) : ipv6Pattern P = '^' :: P.flatMap tok6 ++ ['$'] := by
  have h := (fillWildcards_shape _ (escapeColons_shape P).1).1
  have h' := replaceFirst_noColonPair "(?::[0-9a-fA-F]{0,4})*:?".toList _ h
  unfold ipv6Pattern
  have e : replaceAllChar '*' "[0-9a-fA-F]{1,4}".toList (replaceAllChar ':' "\\:".toList P)
      = P.flatMap tok6 := by
    unfold replaceAllChar
    rw [List.flatMap_assoc]
    congr 1
    funext c
    by_cases h₁ : c = ':'
    · subst h₁; rfl
    · by_cases h₂ : c = '*'
      · subst h₂; rfl
      · simp [tok6, h₁, h₂]
  exact (congrArg (fun t => '^' :: t ++ ['$']) h').trans
    (congrArg (fun t => '^' :: t ++ ['$']) e)

theorem parse_ipv6Pattern (P : List Char) (hP : ∀ c ∈ P, c = '*' ∨ c = ':' ∨ c ∈ hexDigits) :
    parse (ipv6Pattern P) = some (Regex.seqOf (Regex.bol :: P.map item6 ++ [Regex.eol])) := by
  rw [ipv6Pattern_eq]
  exact parse_anchored _ _ (parseFrom_tok6 P hP)

/-- C7: an IPv6 wildcard entry built from hexadecimal digits, `:` and `*`
bans every address obtained from it by replacing each `*` with one to four
hexadecimal digits and changing the case of letters. -/
theorem isBanned_ipv6_fill (P A : String)
    (hP : ∀ c ∈ P.toList, c = '*' ∨ c = ':' ∨ c ∈ hexDigits)
    (hstar : '*' ∈ P.toList) (hcolon : ':' ∈ P.toList)
    (hF : Fills6 P.toList A.toList) :
    isBanned [P] A = some true := by
  have hm : [] ∈ Regex.run true A.toList.length
      (Regex.seqOf (P.toList.map item6 ++ [Regex.eol])) A.toList := by
    have := run_items6 hF hP A.toList.length [Regex.eol] [] [] (by simp [Regex.seqOf, Regex.run])
    simpa using this
  have ht := test_anchored_of_mem true _ _ hm
  unfold isBanned entryMatches
  rw [if_pos hstar, if_pos hcolon]
  unfold regExpTest
  rw [parse_ipv6Pattern _ hP]
  simp only [Option.map_some', ht]

/-- The entry `"2001:db8::*"` bans `"2001:db8::1a2b"`, and also the same
address written in upper case. -/
theorem isBanned_ipv6_fill_witness :
    isBanned ["2001:db8::*"] "2001:db8::1a2b" = some true ∧
    isBanned ["2001:db8::*"] "2001:DB8::1A2B" = some true :=
  ⟨isBanned_ipv6_fill "2001:db8::*" "2001:db8::1a2b" (by decide) (by decide) (by decide)
    (Fills6.lit (by decide) (Or.inl rfl) <| Fills6.lit (by decide) (Or.inl rfl) <|
      Fills6.lit (by decide) (Or.inl rfl) <| Fills6.lit (by decide) (Or.inl rfl) <|
      Fills6.lit (by decide) (Or.inl rfl) <| Fills6.lit (by decide) (Or.inl rfl) <|
      Fills6.lit (by decide) (Or.inl rfl) <| Fills6.lit (by decide) (Or.inl rfl) <|
      Fills6.lit (by decide) (Or.inl rfl) <| Fills6.lit (by decide) (Or.inl rfl) <|
      Fills6.star (w := ['1', 'a', '2', 'b']) (by decide) (by decide) (by decide) Fills6.nil),
   isBanned_ipv6_fill "2001:db8::*" "2001:DB8::1A2B" (by decide) (by decide) (by decide)
    (Fills6.lit (by decide) (Or.inl rfl) <| Fills6.lit (by decide) (Or.inl rfl) <|
      Fills6.lit (by decide) (Or.inl rfl) <| Fills6.lit (by decide) (Or.inl rfl) <|
      Fills6.lit (by decide) (Or.inl rfl) <|
      Fills6.lit (by decide) (Or.inr (Or.inl rfl)) <|
      Fills6.lit (by decide) (Or.inr (Or.inl rfl)) <|
      Fills6.lit (by decide) (Or.inl rfl) <|
      Fills6.lit (by decide) (Or.inl rfl) <| Fills6.lit (by decide) (Or.inl rfl) <|
      Fills6.star (w := ['1', 'A', '2', 'B']) (by decide) (by decide) (by decide) Fills6.nil)⟩

/-- C4: evaluation of the ban check at an expansion of `::`.  The entry
`"2001:db8::*"` does not ban `"2001:db8:0:0:0:0:0:1a2b"`, the same address
with the compressed zero groups written out. -/
theorem isBanned_ipv6_expansion_rejected :
    isBanned ["2001:db8::*"] "2001:db8:0:0:0:0:0:1a2b" = some false ∧
    isBanned ["2001:db8::*"] "2001:db8::1a2b" = some true := by
  constructor <;> rfl

/-! ## The IPv4 branch -/

theorem isDigit_iff (c : Char) : c.isDigit = true ↔ 48 ≤ c.toNat ∧ c.toNat ≤ 57 := by
  simp only [Char.isDigit, Char.toNat, Bool.and_eq_true, decide_eq_true_eq, ge_iff_le]
  exact Iff.rfl

theorem char_eq_of_toNat {c : Char} {k : Nat} (h : c.toNat = k) : c = Char.ofNat k := by
  rw [← h, Char.ofNat_toNat]

theorem mem_run_empty {ci : Bool} {n : Nat} {s v : List Char} :
    v ∈ Regex.run ci n Regex.empty s ↔ v = s := by
  simp [Regex.run]

theorem mem_run_char {n : Nat} {c : Char} {s v : List Char} :
    v ∈ Regex.run false n (Regex.char c) s ↔ s = c :: v := by
  cases s with
  | nil => simp [Regex.run]
  | cons x t =>
    by_cases h : c = x
    · subst h
      simp [Regex.run, charEq]
      exact eq_comm
    · have h' : ¬ x = c := fun e => h e.symm
      simp [Regex.run, charEq, h, h']

theorem mem_run_cls {ci : Bool} {n : Nat} {items : List ClassItem} {s v : List Char} :
    v ∈ Regex.run ci n (Regex.cls items) s
      ↔ ∃ x, s = x :: v ∧ items.any (ClassItem.test ci x) = true := by
  cases s with
  | nil => simp [Regex.run]
  | cons x t =>
    by_cases h : items.any (ClassItem.test ci x) = true
    · simp only [Regex.run, h, if_true, List.mem_singleton, List.cons.injEq]
      constructor
      · intro e; exact ⟨x, ⟨rfl, e.symm⟩, h⟩
      · rintro ⟨y, ⟨rfl, e⟩, _⟩; exact e.symm
    · simp only [Regex.run, h, List.cons.injEq]
      constructor
      · intro e; simp at e
      · rintro ⟨y, ⟨rfl, _⟩, hy⟩; exact absurd hy h

theorem mem_run_seq {ci : Bool} {n : Nat} {a b : Regex} {s v : List Char} :
    v ∈ Regex.run ci n (Regex.seq a b) s
      ↔ ∃ u, u ∈ Regex.run ci n a s ∧ v ∈ Regex.run ci n b u := by
  rw [Regex.run, List.mem_flatMap]

theorem mem_run_alt {ci : Bool} {n : Nat} {a b : Regex} {s v : List Char} :
    v ∈ Regex.run ci n (Regex.alt a b) s
      ↔ v ∈ Regex.run ci n a s ∨ v ∈ Regex.run ci n b s := by
  rw [Regex.run, List.mem_append]

theorem mem_run_opt {ci : Bool} {n : Nat} {r : Regex} {s v : List Char} :
    v ∈ Regex.run ci n (Regex.rep r 0 (some 1)) s
      ↔ v = s ∨ (v ∈ Regex.run ci n r s ∧ v.length < s.length) := by
  rw [run_rep]
  simp only [iterate, optIterate, List.flatMap_cons, List.flatMap_nil, List.append_nil,
    List.mem_append, List.mem_flatMap, List.mem_filter, List.mem_singleton,
    decide_eq_true_eq, Nat.sub_zero]
  constructor
  · rintro (⟨u, ⟨hu, hlt⟩, rfl⟩ | h)
    · exact Or.inr ⟨hu, hlt⟩
    · exact Or.inl h
  · rintro (h | ⟨hu, hlt⟩)
    · exact Or.inr h
    · exact Or.inl ⟨v, ⟨hu, hlt⟩, rfl⟩

theorem range_test {lo hi x : Char} :
    [ClassItem.range lo hi].any (ClassItem.test false x) = true
      ↔ lo.toNat ≤ x.toNat ∧ x.toNat ≤ hi.toNat := by
  simp [ClassItem.test, inRange]

theorem zeroOne_test {x : Char} :
    [ClassItem.single '0', ClassItem.single '1'].any (ClassItem.test false x) = true
      ↔ x = '0' ∨ x = '1' := by
  simp only [List.any_cons, List.any_nil, ClassItem.test, charEq, Bool.or_false,
    Bool.or_eq_true, beq_iff_eq, Bool.false_eq_true, if_false]
  constructor
  · rintro (h | h)
    · exact Or.inl h.symm
    · exact Or.inr h.symm
  · rintro (h | h)
    · exact Or.inl h.symm
    · exact Or.inr h.symm

theorem validOctet_one {a : Char} (ha : 48 ≤ a.toNat ∧ a.toNat ≤ 57) : ValidOctet [a] := by
  refine ⟨by simp, by simp, ?_, ?_⟩
  · intro c hc
    simp only [List.mem_singleton] at hc
    subst hc
    exact (isDigit_iff c).2 ha
  · simp only [decimalValue, List.foldl]
    omega

theorem validOctet_two {a b : Char} (ha : 48 ≤ a.toNat ∧ a.toNat ≤ 57)
    (hb : 48 ≤ b.toNat ∧ b.toNat ≤ 57) : ValidOctet [a, b] := by
  refine ⟨by simp, by simp, ?_, ?_⟩
  · intro c hc
    simp only [List.mem_cons, List.mem_singleton, List.not_mem_nil, or_false] at hc
    rcases hc with rfl | rfl
    · exact (isDigit_iff _).2 ha
    · exact (isDigit_iff _).2 hb
  · simp only [decimalValue, List.foldl]
    omega

theorem validOctet_three {a b c : Char} (ha : 48 ≤ a.toNat ∧ a.toNat ≤ 57)
    (hb : 48 ≤ b.toNat ∧ b.toNat ≤ 57) (hc : 48 ≤ c.toNat ∧ c.toNat ≤ 57)
    (hv : 100 * (a.toNat - 48) + 10 * (b.toNat - 48) + (c.toNat - 48) ≤ 255) :
    ValidOctet [a, b, c] := by
  refine ⟨by simp, by simp, ?_, ?_⟩
  · intro d hd
    simp only [List.mem_cons, List.mem_singleton, List.not_mem_nil, or_false] at hd
    rcases hd with rfl | rfl | rfl
    · exact (isDigit_iff _).2 ha
    · exact (isDigit_iff _).2 hb
    · exact (isDigit_iff _).2 hc
  · simp only [decimalValue, List.foldl]
    omega

theorem validOctet_cases {w : List Char} (h : ValidOctet w) :
    (∃ a, w = [a] ∧ 48 ≤ a.toNat ∧ a.toNat ≤ 57) ∨
    (∃ a b, w = [a, b] ∧ (48 ≤ a.toNat ∧ a.toNat ≤ 57) ∧ 48 ≤ b.toNat ∧ b.toNat ≤ 57) ∨
    (∃ a b c, w = [a, b, c] ∧ (48 ≤ a.toNat ∧ a.toNat ≤ 57) ∧ (48 ≤ b.toNat ∧ b.toNat ≤ 57) ∧
      (48 ≤ c.toNat ∧ c.toNat ≤ 57) ∧
      100 * (a.toNat - 48) + 10 * (b.toNat - 48) + (c.toNat - 48) ≤ 255) := by
  obtain ⟨h₁, h₃, hd, hv⟩ := h
  match w, h₁, h₃, hd, hv with
  | [a], _, _, hd, _ =>
    exact Or.inl ⟨a, rfl, (isDigit_iff a).1 (hd a (by simp))⟩
  | [a, b], _, _, hd, _ =>
    exact Or.inr (Or.inl ⟨a, b, rfl, (isDigit_iff a).1 (hd a (by simp)),
      (isDigit_iff b).1 (hd b (by simp))⟩)
  | [a, b, c], _, _, hd, hv =>
    refine Or.inr (Or.inr ⟨a, b, c, rfl, (isDigit_iff a).1 (hd a (by simp)),
      (isDigit_iff b).1 (hd b (by simp)), (isDigit_iff c).1 (hd c (by simp)), ?_⟩)
    simp only [decimalValue, List.foldl] at hv
    omega
  | [], h, _, _, _ => simp at h
  | _ :: _ :: _ :: _ :: _, _, h, _, _ => simp at h

theorem mem_run_octetRegex {n : Nat} {s v : List Char} :
    v ∈ Regex.run false n octetRegex s ↔ ∃ w, ValidOctet w ∧ s = w ++ v := by
  have e0 : '0'.toNat = 48 := rfl
  have e1 : '1'.toNat = 49 := rfl
  have e2 : '2'.toNat = 50 := rfl
  have e4 : '4'.toNat = 52 := rfl
  have e5 : '5'.toNat = 53 := rfl
  have e9 : '9'.toNat = 57 := rfl
  simp only [octetRegex, Regex.seqOf, List.foldr, mem_run_alt, mem_run_seq, mem_run_char,
    mem_run_cls, mem_run_opt, mem_run_empty, range_test, zeroOne_test, e0, e4, e5, e9]
  constructor
  · rintro (⟨u, rfl, u₁, rfl, u₂, ⟨x, rfl, hx⟩, rfl⟩ |
      ⟨u, rfl, u₁, ⟨x, rfl, hx⟩, u₂, ⟨y, rfl, hy⟩, rfl⟩ |
      ⟨u, hu, u₁, ⟨y, rfl, hy⟩, u₂, hu₂, rfl⟩)
    · exact ⟨['2', '5', x], validOctet_three (by omega) (by omega) (by omega) (by omega), rfl⟩
    · exact ⟨['2', x, y], validOctet_three (by omega) (by omega) (by omega) (by omega), rfl⟩
    · rcases hu with rfl | ⟨⟨x, rfl, hx⟩, _⟩
      · rcases hu₂ with rfl | ⟨⟨z, rfl, hz⟩, _⟩
        · exact ⟨[y], validOctet_one hy, rfl⟩
        · exact ⟨[y, z], validOctet_two hy hz, rfl⟩
      · have hx' : 48 ≤ x.toNat ∧ x.toNat ≤ 49 := by
          rcases hx with rfl | rfl <;> omega
        rcases hu₂ with rfl | ⟨⟨z, rfl, hz⟩, _⟩
        · exact ⟨[x, y], validOctet_two (by omega) hy, rfl⟩
        · exact ⟨[x, y, z], validOctet_three (by omega) hy hz (by omega), rfl⟩
  · rintro ⟨w, hw, rfl⟩
    rcases validOctet_cases hw with ⟨a, rfl, ha⟩ | ⟨a, b, rfl, ha, hb⟩ |
      ⟨a, b, c, rfl, ha, hb, hc, hv⟩
    · exact Or.inr (Or.inr ⟨a :: v, Or.inl rfl, v, ⟨a, rfl, ha⟩, v, Or.inl rfl, rfl⟩)
    · refine Or.inr (Or.inr ⟨a :: b :: v, Or.inl rfl, b :: v, ⟨a, rfl, ha⟩, v,
        Or.inr ⟨⟨b, rfl, hb⟩, by simp⟩, rfl⟩)
    · by_cases h01 : a.toNat ≤ 49
      · have ha' : a = '0' ∨ a = '1' := by
          have : a.toNat = 48 ∨ a.toNat = 49 := by omega
          rcases this with h | h
          · exact Or.inl (char_eq_of_toNat h)
          · exact Or.inr (char_eq_of_toNat h)
        refine Or.inr (Or.inr ⟨b :: c :: v, Or.inr ⟨⟨a, rfl, ha'⟩, by simp⟩, c :: v,
          ⟨b, rfl, hb⟩, v, Or.inr ⟨⟨c, rfl, hc⟩, by simp⟩, rfl⟩)
      · have ha2 : a = '2' := char_eq_of_toNat (k := 50) (by omega)
        subst ha2
        by_cases hb4 : b.toNat ≤ 52
        · exact Or.inr (Or.inl ⟨b :: c :: v, rfl, c :: v, ⟨b, rfl, by omega⟩, v,
            ⟨c, rfl, hc⟩, rfl⟩)
        · have hb5 : b = '5' := char_eq_of_toNat (k := 53) (by omega)
          subst hb5
          exact Or.inl ⟨'5' :: c :: v, rfl, c :: v, rfl, v, ⟨c, rfl, by omega⟩, rfl⟩

theorem mem_run_items4 (n : Nat) (k : List Regex) (v : List Char) :
    ∀ (P s : List Char), v ∈ Regex.run false n (Regex.seqOf (P.map item4 ++ k)) s
      ↔ ∃ A u, s = A ++ u ∧ Fills4 P A ∧ v ∈ Regex.run false n (Regex.seqOf k) u := by
  intro P
  induction P with
  | nil =>
    intro s
    simp only [List.map_nil, List.nil_append, Fills4]
    constructor
    · intro h; exact ⟨[], s, rfl, rfl, h⟩
    · rintro ⟨A, u, rfl, rfl, h⟩; exact h
  | cons c P ih =>
    intro s
    rw [List.map_cons, List.cons_append, run_seqOf_cons, List.mem_flatMap]
    by_cases hc : c = '*'
    · subst hc
      have e : item4 '*' = octetRegex := rfl
      simp only [e, mem_run_octetRegex, ih, Fills4, if_true]
      constructor
      · rintro ⟨t, ⟨w, hw, rfl⟩, A, u, rfl, hF, hv⟩
        exact ⟨w ++ A, u, by simp, ⟨w, A, hw, rfl, hF⟩, hv⟩
      · rintro ⟨A', u, rfl, ⟨w, A, hw, rfl, hF⟩, hv⟩
        exact ⟨A ++ u, ⟨w, hw, by simp⟩, A, u, rfl, hF, hv⟩
    · have e : item4 c = Regex.char c := by simp [item4, hc]
      simp only [e, mem_run_char, ih, Fills4, if_neg hc]
      constructor
      · rintro ⟨t, rfl, A, u, rfl, hF, hv⟩
        exact ⟨c :: A, u, by simp, ⟨A, rfl, hF⟩, hv⟩
      · rintro ⟨A', u, rfl, ⟨A, rfl, hF⟩, hv⟩
        exact ⟨A ++ u, by simp, A, u, rfl, hF, hv⟩

theorem mem_run_eol {ci : Bool} {n : Nat} {u v : List Char} :
    v ∈ Regex.run ci n (Regex.seqOf [Regex.eol]) u ↔ u = [] ∧ v = [] := by
  cases u with
  | nil => simp [Regex.seqOf, Regex.run]
  | cons x t => simp [Regex.seqOf, Regex.run]

theorem test_anchored_iff (ci : Bool) (items : List Regex) (s : List Char) :
    Regex.test ci (Regex.seqOf (Regex.bol :: items ++ [Regex.eol])) s = true
      ↔ ∃ v, v ∈ Regex.run ci s.length (Regex.seqOf (items ++ [Regex.eol])) s := by
  have e : ∀ t, Regex.run ci s.length (Regex.seqOf (Regex.bol :: items ++ [Regex.eol])) t
      = if t.length = s.length then
          Regex.run ci s.length (Regex.seqOf (items ++ [Regex.eol])) t
        else [] := by
    intro t
    rw [List.cons_append, run_seqOf_cons]
    by_cases h : t.length = s.length <;> simp [Regex.run, h]
  unfold Regex.test
  rw [List.any_eq_true]
  constructor
  · rintro ⟨t, ht, hne⟩
    have hsuf : t <:+ s := (List.mem_tails _ _).1 ht
    rw [e] at hne
    by_cases hlen : t.length = s.length
    · have hts : t = s := hsuf.eq_of_length hlen
      subst hts
      rw [if_pos rfl] at hne
      cases hr : Regex.run ci t.length (Regex.seqOf (items ++ [Regex.eol])) t with
      | nil => rw [hr] at hne; simp at hne
      | cons v _ => exact ⟨v, List.mem_cons_self _ _⟩
    · rw [if_neg hlen] at hne
      simp at hne
  · rintro ⟨v, hv⟩
    refine ⟨s, (List.mem_tails _ _).2 (List.suffix_refl s), ?_⟩
    rw [e, if_pos rfl]
    cases hr : Regex.run ci s.length (Regex.seqOf (items ++ [Regex.eol])) s with
    | nil => rw [hr] at hv; simp at hv
    | cons _ _ => rfl

theorem test_items4 (P A : List Char) :
    Regex.test false (Regex.seqOf (Regex.bol :: P.map item4 ++ [Regex.eol])) A = true
      ↔ Fills4 P A := by
  rw [test_anchored_iff]
  simp only [mem_run_items4, mem_run_eol]
  constructor
  · rintro ⟨v, A', u, rfl, hF, rfl, rfl⟩
    simpa using hF
  · intro hF
    exact ⟨[], A, [], by simp, hF, rfl, rfl⟩

theorem digit_not_special (c : Char) (hc : c.isDigit = true) : c ∉ specials := by
  have h : ∀ d ∈ specials, d.isDigit = false := by decide
  intro hs
  rw [h c hs] at hc
  exact Bool.noConfusion hc

theorem parseFrom_tok4 (P : List Char) (hP : ∀ c ∈ P, c = '*' ∨ c = '.' ∨ c.isDigit = true) :
    ∀ (q : Bool) (top : Frame) (stack : List Frame),
      ∃ q', parseFrom ⟨Mode.normal, q, top, stack⟩ (P.flatMap tok4)
        = some ⟨Mode.normal, q', { top with cur := (P.map item4).reverse ++ top.cur }, stack⟩ := by
  induction P with
  | nil => intro q top stack; exact ⟨q, rfl⟩
  | cons c P ih =>
    intro q top stack
    have hP' : ∀ c ∈ P, c = '*' ∨ c = '.' ∨ c.isDigit = true :=
      fun d hd => hP d (List.mem_cons_of_mem c hd)
    rw [List.flatMap_cons, parseFrom_append]
    rcases hP c (List.mem_cons_self c P) with h | h | h
    · subst h
      have e : tok4 '*' = octetGroup := rfl
      rw [e, parseFrom_octetGroup]
      obtain ⟨q', hq'⟩ := ih hP' true { top with cur := octetRegex :: top.cur } stack
      refine ⟨q', ?_⟩
      simp only [hq']
      simp [item4]
    · subst h
      have e : tok4 '.' = ['\\', '.'] := rfl
      rw [e, parseFrom_escaped '.' (by decide) (by decide)]
      obtain ⟨q', hq'⟩ := ih hP' true { top with cur := Regex.char '.' :: top.cur } stack
      refine ⟨q', ?_⟩
      simp only [hq']
      simp [item4]
    · have hs : c ∉ specials := digit_not_special c h
      have h₁ : c ≠ '.' := by
        intro e; subst e; revert h; decide
      have h₂ : c ≠ '*' := by
        intro e; subst e; revert h; decide
      have ha : c.toNat < 128 := by
        have := (isDigit_iff c).1 h
        omega
      have e : tok4 c = [c] := by simp [tok4, h₁, h₂]
      rw [e, parseFrom_literal c hs ha]
      obtain ⟨q', hq'⟩ := ih hP' true { top with cur := Regex.char c :: top.cur } stack
      refine ⟨q', ?_⟩
      simp only [hq']
      simp [item4, h₂]

theorem ipv4Pattern_eq (P : List Char) : ipv4Pattern P = '^' :: P.flatMap tok4 ++ ['$'] := by
  unfold ipv4Pattern
  have e : replaceAllChar '*' "(25[0-5]|2[0-4][0-9]|[01]?[0-9][0-9]?)".toList
      (replaceAllChar '.' "\\.".toList P) = P.flatMap tok4 := by
    unfold replaceAllChar
    rw [List.flatMap_assoc]
    congr 1
    funext c
    by_cases h₁ : c = '.'
    · subst h₁; rfl
    · by_cases h₂ : c = '*'
      · subst h₂; rfl
      · simp [tok4, h₁, h₂]
  exact congrArg (fun t => '^' :: t ++ ['$']) e

theorem parse_ipv4Pattern (P : List Char) (hP : ∀ c ∈ P, c = '*' ∨ c = '.' ∨ c.isDigit = true) :
    parse (ipv4Pattern P) = some (Regex.seqOf (Regex.bol :: P.map item4 ++ [Regex.eol])) := by
  rw [ipv4Pattern_eq]
  exact parse_anchored _ _ (parseFrom_tok4 P hP)

/-- The IPv4 branch on an entry of digits, dots and `*`: the pattern compiles
and the predicate accepts exactly the fillings of the entry. -/
theorem regExpTest_ipv4 (P A : List Char)
    (hP : ∀ c ∈ P, c = '*' ∨ c = '.' ∨ c.isDigit = true) :
    ∃ b, regExpTest (ipv4Pattern P) false A = some b ∧ (b = true ↔ Fills4 P A) := by
  unfold regExpTest
  rw [parse_ipv4Pattern P hP, Option.map_some']
  exact ⟨_, rfl, test_items4 P A⟩

theorem fills4_cons_ne {c : Char} (hc : c ≠ '*') (P A : List Char) :
    Fills4 (c :: P) A ↔ ∃ A', A = c :: A' ∧ Fills4 P A' := by
  simp only [Fills4, if_neg hc]

theorem fills4_literal (l Q : List Char) (hl : ∀ c ∈ l, c ≠ '*') :
    ∀ A, Fills4 (l ++ Q) A ↔ ∃ A', A = l ++ A' ∧ Fills4 Q A' := by
  induction l with
  | nil =>
    intro A
    constructor
    · intro h; exact ⟨A, rfl, h⟩
    · rintro ⟨A', rfl, h⟩; exact h
  | cons c l ih =>
    intro A
    have hc : c ≠ '*' := hl c (List.mem_cons_self c l)
    have hl' : ∀ d ∈ l, d ≠ '*' := fun d hd => hl d (List.mem_cons_of_mem c hd)
    rw [List.cons_append, fills4_cons_ne hc]
    simp only [ih hl']
    constructor
    · rintro ⟨A', rfl, A'', rfl, h⟩; exact ⟨A'', rfl, h⟩
    · rintro ⟨A'', rfl, h⟩; exact ⟨l ++ A'', rfl, A'', rfl, h⟩

theorem split_unique {X Y : List Char} :
    ∀ {a b : List Char}, '.' ∉ a → '.' ∉ b → a ++ '.' :: X = b ++ '.' :: Y → a = b ∧ X = Y := by
  intro a
  induction a with
  | nil =>
    intro b _ hb h
    cases b with
    | nil => simpa using h
    | cons d b =>
      simp only [List.nil_append, List.cons_append, List.cons.injEq] at h
      exact absurd (h.1 ▸ List.mem_cons_self _ _) hb
  | cons c a ih =>
    intro b ha hb h
    cases b with
    | nil =>
      simp only [List.nil_append, List.cons_append, List.cons.injEq] at h
      exact absurd (h.1 ▸ List.mem_cons_self _ _) ha
    | cons d b =>
      simp only [List.cons_append, List.cons.injEq] at h
      have ha' : '.' ∉ a := fun m => ha (List.mem_cons_of_mem _ m)
      have hb' : '.' ∉ b := fun m => hb (List.mem_cons_of_mem _ m)
      obtain ⟨e₁, e₂⟩ := ih ha' hb' h.2
      exact ⟨by rw [h.1, e₁], e₂⟩

theorem digits_no_dot {l : List Char} (hl : ∀ c ∈ l, c.isDigit = true) : '.' ∉ l := by
  intro h
  exact absurd (hl '.' h) (by decide)

theorem digits_no_star {l : List Char} (hl : ∀ c ∈ l, c.isDigit = true) : ∀ c ∈ l, c ≠ '*' := by
  intro c hc e
  rw [e] at hc
  exact absurd (hl '*' hc) (by decide)

theorem fills4_component (p a : String) (Q X : List Char) (hp : IsComponent p)
    (ha : '.' ∉ a.toList) :
    Fills4 (p.toList ++ '.' :: Q) (a.toList ++ '.' :: X) ↔ ComponentOk p a ∧ Fills4 Q X := by
  rcases hp with hp | hp
  · subst hp
    have e : "*".toList = ['*'] := rfl
    simp only [e, List.cons_append, List.nil_append, Fills4, if_true,
      show ¬ ('.' = '*') by decide, if_false]
    constructor
    · rintro ⟨w, A', hw, hA, A'', rfl, hF⟩
      obtain ⟨e₁, e₂⟩ := split_unique ha (digits_no_dot hw.2.2.1) hA
      subst e₂
      exact ⟨Or.inl ⟨rfl, e₁ ▸ hw⟩, hF⟩
    · rintro ⟨hc | hc, hF⟩
      · exact ⟨a.toList, '.' :: X, hc.2, rfl, X, rfl, hF⟩
      · exact absurd rfl hc.1
  · have hne : p ≠ "*" := by
      intro e
      rw [e] at hp
      exact absurd (hp '*' (by decide)) (by decide)
    rw [fills4_literal _ _ (digits_no_star hp)]
    simp only [Fills4, show ¬ ('.' = '*') by decide, if_false]
    constructor
    · rintro ⟨A', hA, A'', rfl, hF⟩
      obtain ⟨e₁, e₂⟩ := split_unique ha (digits_no_dot hp) hA
      subst e₂
      exact ⟨Or.inr ⟨hne, String.ext e₁⟩, hF⟩
    · rintro ⟨hc | hc, hF⟩
      · exact absurd hc.1 hne
      · rw [hc.2]
        exact ⟨'.' :: X, rfl, X, rfl, hF⟩

theorem fills4_last (p a : String) (hp : IsComponent p) :
    Fills4 p.toList a.toList ↔ ComponentOk p a := by
  rcases hp with hp | hp
  · subst hp
    have e : "*".toList = ['*'] := rfl
    simp only [e, Fills4, if_true]
    constructor
    · rintro ⟨w, A', hw, hA, rfl⟩
      rw [List.append_nil] at hA
      exact Or.inl ⟨rfl, hA ▸ hw⟩
    · rintro (hc | hc)
      · exact ⟨a.toList, [], hc.2, by simp, rfl⟩
      · exact absurd rfl hc.1
  · have hne : p ≠ "*" := by
      intro e
      rw [e] at hp
      exact absurd (hp '*' (by decide)) (by decide)
    have h := fills4_literal p.toList [] (digits_no_star hp) a.toList
    rw [List.append_nil] at h
    rw [h]
    simp only [Fills4]
    constructor
    · rintro ⟨A', hA, rfl⟩
      rw [List.append_nil] at hA
      exact Or.inr ⟨hne, String.ext hA⟩
    · rintro (hc | hc)
      · exact absurd hc.1 hne
      · rw [hc.2]; exact ⟨[], by simp, rfl⟩

theorem component_alphabet {p : String} (hp : IsComponent p) :
    ∀ c ∈ p.toList, c = '*' ∨ c = '.' ∨ c.isDigit = true := by
  intro c hc
  rcases hp with hp | hp
  · subst hp
    have e : "*".toList = ['*'] := rfl
    rw [e, List.mem_singleton] at hc
    exact Or.inl hc
  · exact Or.inr (Or.inr (hp c hc))

/-- C3: for an IPv4 entry of four dot-separated components, each `*` or a
literal of decimal digits and at least one of them `*`, and an address of
four dot-separated components, the ban check answers, and it answers `true`
exactly when every literal component of the entry equals the corresponding
component of the address and every component of the address at a wildcard
is a valid octet from 0 to 255. -/
theorem isBanned_ipv4_wildcard (p₁ p₂ p₃ p₄ a₁ a₂ a₃ a₄ : String)
    (hp₁ : IsComponent p₁) (hp₂ : IsComponent p₂) (hp₃ : IsComponent p₃) (hp₄ : IsComponent p₄)
    (hw : p₁ = "*" ∨ p₂ = "*" ∨ p₃ = "*" ∨ p₄ = "*")
    (ha₁ : '.' ∉ a₁.toList) (ha₂ : '.' ∉ a₂.toList) (ha₃ : '.' ∉ a₃.toList) :
    ∃ b, isBanned [p₁ ++ "." ++ p₂ ++ "." ++ p₃ ++ "." ++ p₄]
        (a₁ ++ "." ++ a₂ ++ "." ++ a₃ ++ "." ++ a₄) = some b ∧
      (b = true ↔
        ComponentOk p₁ a₁ ∧ ComponentOk p₂ a₂ ∧ ComponentOk p₃ a₃ ∧ ComponentOk p₄ a₄) := by
  have eP : (p₁ ++ "." ++ p₂ ++ "." ++ p₃ ++ "." ++ p₄).toList
      = p₁.toList ++ '.' :: (p₂.toList ++ '.' :: (p₃.toList ++ '.' :: p₄.toList)) := by
    simp [String.toList, String.data_append]
  have eA : (a₁ ++ "." ++ a₂ ++ "." ++ a₃ ++ "." ++ a₄).toList
      = a₁.toList ++ '.' :: (a₂.toList ++ '.' :: (a₃.toList ++ '.' :: a₄.toList)) := by
    simp [String.toList, String.data_append]
  have hP : ∀ c ∈ (p₁ ++ "." ++ p₂ ++ "." ++ p₃ ++ "." ++ p₄).toList,
      c = '*' ∨ c = '.' ∨ c.isDigit = true := by
    intro c hc
    rw [eP] at hc
    simp only [List.mem_append, List.mem_cons] at hc
    rcases hc with h | h | h | h | h | h | h
    · exact component_alphabet hp₁ c h
    · exact Or.inr (Or.inl h)
    · exact component_alphabet hp₂ c h
    · exact Or.inr (Or.inl h)
    · exact component_alphabet hp₃ c h
    · exact Or.inr (Or.inl h)
    · exact component_alphabet hp₄ c h
  have hstar : '*' ∈ (p₁ ++ "." ++ p₂ ++ "." ++ p₃ ++ "." ++ p₄).toList := by
    have e : "*".toList = ['*'] := rfl
    rw [eP]
    simp only [List.mem_append, List.mem_cons]
    rcases hw with h | h | h | h
    · rw [h, e]; simp
    · rw [h, e]; simp
    · rw [h, e]; simp
    · rw [h, e]; simp
  have hcolon : ':' ∉ (p₁ ++ "." ++ p₂ ++ "." ++ p₃ ++ "." ++ p₄).toList := by
    intro h
    rcases hP ':' h with h | h | h
    · exact absurd h (by decide)
    · exact absurd h (by decide)
    · exact absurd h (by decide)
  obtain ⟨b, hb, hiff⟩ := regExpTest_ipv4 _ (a₁ ++ "." ++ a₂ ++ "." ++ a₃ ++ "." ++ a₄).toList hP
  have hF : Fills4 (p₁ ++ "." ++ p₂ ++ "." ++ p₃ ++ "." ++ p₄).toList
      (a₁ ++ "." ++ a₂ ++ "." ++ a₃ ++ "." ++ a₄).toList
      ↔ ComponentOk p₁ a₁ ∧ ComponentOk p₂ a₂ ∧ ComponentOk p₃ a₃ ∧ ComponentOk p₄ a₄ := by
    rw [eP, eA, fills4_component p₁ a₁ _ _ hp₁ ha₁, fills4_component p₂ a₂ _ _ hp₂ ha₂,
      fills4_component p₃ a₃ _ _ hp₃ ha₃, fills4_last p₄ a₄ hp₄]
  refine ⟨b, ?_, hiff.trans hF⟩
  unfold isBanned entryMatches
  rw [if_pos hstar, if_neg hcolon, hb]
  cases b <;> rfl

/-- The entry `"192.168.*.5"` bans `"192.168.77.5"` and does not ban
`"192.168.77.6"`. -/
theorem isBanned_ipv4_wildcard_witness :
    isBanned ["192.168.*.5"] "192.168.77.5" = some true ∧
    isBanned ["192.168.*.5"] "192.168.77.6" = some false := by
  have hd : ∀ s : String, s = "192" ∨ s = "168" ∨ s = "5" → IsComponent s := by
    rintro s (rfl | rfl | rfl) <;> exact Or.inr (by decide)
  have hs : IsComponent "*" := Or.inl rfl
  obtain ⟨b, hb, hiff⟩ := isBanned_ipv4_wildcard "192" "168" "*" "5" "192" "168" "77" "5"
    (hd _ (Or.inl rfl)) (hd _ (Or.inr (Or.inl rfl))) hs (hd _ (Or.inr (Or.inr rfl)))
    (Or.inr (Or.inr (Or.inl rfl))) (by decide) (by decide) (by decide)
  obtain ⟨b', hb', hiff'⟩ := isBanned_ipv4_wildcard "192" "168" "*" "5" "192" "168" "77" "6"
    (hd _ (Or.inl rfl)) (hd _ (Or.inr (Or.inl rfl))) hs (hd _ (Or.inr (Or.inr rfl)))
    (Or.inr (Or.inr (Or.inl rfl))) (by decide) (by decide) (by decide)
  constructor
  · rw [show ("192.168.*.5" : String) = "192" ++ "." ++ "168" ++ "." ++ "*" ++ "." ++ "5" from rfl,
      show ("192.168.77.5" : String) = "192" ++ "." ++ "168" ++ "." ++ "77" ++ "." ++ "5" from rfl,
      hb]
    congr 1
    refine hiff.2 ⟨Or.inr ⟨by decide, rfl⟩, Or.inr ⟨by decide, rfl⟩, Or.inl ⟨rfl, ?_⟩,
      Or.inr ⟨by decide, rfl⟩⟩
    exact validOctet_two (by decide) (by decide)
  · rw [show ("192.168.*.5" : String) = "192" ++ "." ++ "168" ++ "." ++ "*" ++ "." ++ "5" from rfl,
      show ("192.168.77.6" : String) = "192" ++ "." ++ "168" ++ "." ++ "77" ++ "." ++ "6" from rfl,
      hb']
    congr 1
    cases b' with
    | false => rfl
    | true =>
      obtain ⟨_, _, _, h₄⟩ := hiff'.1 rfl
      rcases h₄ with h | h
      · exact absurd h.1 (by decide)
      · exact absurd h.2 (by decide)

end Endpoints
